import Mathlib

/-! aptos-graffio-js: a shallow embedding of `index.js`.

The grid-walk generator (`shuffleArray`, `getPossibleDirections`, `createLine`,
`getPointsForDraw`), the retry ledger (`handleRetries`) and the transaction
lifecycle (`submitTransactionProxy`, `getTransactionByHash`,
`transactionPendingProxy`, `waitForTransactionProxy`, `sendTransaction`,
`checkBalance`) are translated function by function.

Conventions of the embedding:

* `Math.random()` is an explicit stream of draws (`Rng`); a draw is an exact
  fraction `num / den` with `num < den`, i.e. a real in `[0, 1)`. Floating point
  rounding of the products is not modelled.
* JavaScript numbers that hold integers are `Int`; array lengths, counters and
  HTTP status codes are `Nat`.
* Remote collaborators (transaction builder, signer, HTTP endpoint, balance
  oracle) are oracles indexed by the number of the call; the mutable process
  state is passed explicitly.
* Loops are structural recursions on a fuel argument with the source's loop
  guard kept inside; lemmas show the fuel given by the callers is enough.
-/

namespace Graffio

/-! ## Randomness -/

/-- One result of `Math.random()`: the fraction `num / den`, in `[0, 1)`. -/
structure Draw where
  num : Nat
  den : Nat
  lt : num < den

/-- The sequence of future results of `Math.random()`. -/
abbrev Rng := Nat → Draw

/-- Take the next draw and return it with the rest of the sequence. -/
def Rng.next (rng : Rng) : Draw × Rng := (rng 0, fun n => rng (n + 1))

/-- `Math.floor(r * n)` for the draw `r` and an integer `n`. -/
def floorRandomTimes (r : Draw) (n : Int) : Int := ((r.num : Int) * n) / (r.den : Int)

/-- Source line 28: `Math.round(Math.random() * (max - min) + min)`;
`Math.round` is `floor (v + 1/2)`, computed here over the common denominator `2 * den`. -/
def generateRandomNumber (min max : Int) (r : Draw) : Int :=
  (2 * ((r.num : Int) * (max - min) + min * (r.den : Int)) + (r.den : Int)) / (2 * (r.den : Int))

/-! ## Grid points (source lines 11-25) -/

def lengthStart : Int := 0
def lengthStop : Int := 999
def weightStart : Int := 0
def weightStop : Int := 999

/-- Source `class Point`. -/
structure Point where
  x : Int
  y : Int
deriving DecidableEq, Repr

/-- Source `Point.equals`: `this.x === otherPoint.x && this.y === otherPoint.y`. -/
def Point.equals (p otherPoint : Point) : Bool :=
  decide (p.x = otherPoint.x) && decide (p.y = otherPoint.y)

/-- JavaScript `a >= b >= c`. The operator associates to the left, so this is
`(a >= b) >= c`, and the boolean `a >= b` is converted to the number `1` or `0`
before it is compared with `c`. -/
def jsChainGe (a b c : Int) : Bool :=
  decide ((if a ≥ b then (1 : Int) else 0) ≥ c)

/-! ## shuffleArray (source lines 195-200) -/

/-- The destructuring swap `[array[i], array[j]] = [array[j], array[i]]`
for indices inside the array (the only ones `shuffleArray` produces).
Irreducible, so that symbolic unfolding of a shuffle stops here. -/
@[irreducible] def swapAt {α : Type} (array : List α) (i j : Nat) : List α :=
  match array[i]?, array[j]? with
  | some a, some b => (array.set i b).set j a
  | _, _ => array

/-- The loop of `shuffleArray` from index `i` downwards: while `i > 0`, draw
`j = Math.floor(Math.random() * (i + 1))`, swap positions `i` and `j`, decrement `i`. -/
def shuffleFrom {α : Type} : Nat → List α → Rng → List α × Rng
  | 0, array, rng => (array, rng)
  | i + 1, array, rng =>
    let (r, rng1) := rng.next
    let j := (floorRandomTimes r ((i + 1 : Nat) + 1 : Int)).toNat
    shuffleFrom i (swapAt array (i + 1) j) rng1

/-- Source `shuffleArray`: the loop starts at `array.length - 1`. -/
def shuffleArray {α : Type} (array : List α) (rng : Rng) : List α × Rng :=
  shuffleFrom (array.length - 1) array rng

/-! ## getPossibleDirections (source lines 202-229) -/

/-- The array literal `pointsAround` built from `currentPoint`. -/
def pointsAround (currentPoint : Point) : List Point :=
  [ ⟨currentPoint.x + 1, currentPoint.y⟩,
    ⟨currentPoint.x + 1, currentPoint.y - 1⟩,
    ⟨currentPoint.x, currentPoint.y - 1⟩,
    ⟨currentPoint.x - 1, currentPoint.y - 1⟩,
    ⟨currentPoint.x - 1, currentPoint.y⟩,
    ⟨currentPoint.x - 1, currentPoint.y + 1⟩,
    ⟨currentPoint.x, currentPoint.y + 1⟩,
    ⟨currentPoint.x + 1, currentPoint.y + 1⟩ ]

/-- The condition of the `if` inside the `for` loop of `getPossibleDirections`. -/
def acceptable (usedPoints : List Point) (point : Point) : Bool :=
  (!usedPoints.any (fun usedPoint => usedPoint.equals point)) &&
  jsChainGe weightStop point.x weightStart &&
  jsChainGe lengthStop point.y lengthStart

/-- Source `getPossibleDirections`, for a non-empty `usedPoints` (on an empty
array the source fails on `currentPoint.x`; `createLine` never passes one).
`none` is the source's `null`. -/
def getPossibleDirections (usedPoints : List Point) (h : usedPoints ≠ []) (rng : Rng) :
    Option Point × Rng :=
  let currentPoint := usedPoints.getLast h
  let (shuffled, rng1) := shuffleArray (pointsAround currentPoint) rng
  (shuffled.find? (fun point => acceptable usedPoints point), rng1)

/-! ## createLine (source lines 231-248) -/

/-- The `while (resultPoints.length < lineLength)` loop of `createLine`. -/
def createLineLoop (lineLength : Int) :
    Nat → (resultPoints : List Point) → resultPoints ≠ [] → Rng → List Point × Rng
  | 0, resultPoints, _, rng => (resultPoints, rng)
  | fuel + 1, resultPoints, h, rng =>
    if (resultPoints.length : Int) < lineLength then
      match getPossibleDirections resultPoints h rng with
      | (none, rng1) => (resultPoints, rng1)
      | (some nextPoint, rng1) =>
        createLineLoop lineLength fuel (resultPoints ++ [nextPoint]) (by simp) rng1
    else (resultPoints, rng)

/-- The value of `lineLength` in `createLine`: `Math.floor(Math.random() * maxLineLength) + 1`. -/
def lineLengthOf (maxLineLength : Int) (r : Draw) : Int :=
  floorRandomTimes r maxLineLength + 1

/-- Source `createLine`. -/
def createLine (maxLineLength : Int) (rng : Rng) : List Point × Rng :=
  let (r0, rng1) := rng.next
  let lineLength := lineLengthOf maxLineLength r0
  let (r1, rng2) := rng1.next
  let x := floorRandomTimes r1 (lengthStop - lengthStart + 1) + lengthStart
  let (r2, rng3) := rng2.next
  let y := floorRandomTimes r2 (weightStop - weightStart + 1) + weightStart
  createLineLoop lineLength lineLength.toNat [⟨x, y⟩] (by simp) rng3

/-! ## getPointsForDraw (source lines 250-262) -/

/-- `array.slice(0, end)` for an integer `end`: a negative `end` counts from the back. -/
def sliceFromZero {α : Type} (array : List α) (stop : Int) : List α :=
  if 0 ≤ stop then array.take stop.toNat else array.take ((array.length : Int) + stop).toNat

/-- The `for (let i = 0; i < countLines; i++)` loop of `getPointsForDraw`,
with `n` the number of iterations left. -/
def drawLines (maxLineLength : Int) : Nat → List Point → Rng → List Point × Rng
  | 0, resultArr, rng => (resultArr, rng)
  | n + 1, resultArr, rng =>
    let (line, rng1) := createLine maxLineLength rng
    drawLines maxLineLength n (resultArr ++ line) rng1

/-- The body of `getPointsForDraw` once `countLines` and `listMaxSize` are drawn. -/
def pointsForDrawWith (countLines : Nat) (listMaxSize : Int) (rng : Rng) : List Point × Rng :=
  let maxLineLength := listMaxSize / (countLines : Int)
  let (resultArr, rng1) := drawLines maxLineLength countLines [] rng
  (sliceFromZero resultArr listMaxSize, rng1)

/-- The value of `countLines`: `Math.floor(Math.random() * 4) + 1`. -/
def countLinesOf (r : Draw) : Nat := (floorRandomTimes r 4).toNat + 1

/-- Source `getPointsForDraw`; `pixelsFrom` and `pixelsTo` are
`config.pixelsCount.from` and `config.pixelsCount.to`. -/
def getPointsForDraw (pixelsFrom pixelsTo : Int) (rng : Rng) : List Point × Rng :=
  let (r0, rng1) := rng.next
  let countLines := countLinesOf r0
  let (r1, rng2) := rng1.next
  let listMaxSize := generateRandomNumber pixelsFrom pixelsTo r1
  pointsForDrawWith countLines listMaxSize rng2

/-! ## Retry ledger (source lines 33-41) -/

/-- The module-level `retriesMap`: address string to stored count. -/
abbrev RetriesMap := String → Option Nat

/-- The state of `new Map()`. -/
def RetriesMap.empty : RetriesMap := fun _ => none

/-- The effect of `retriesMap.set(address, count)`. -/
def RetriesMap.set (m : RetriesMap) (address : String) (count : Nat) : RetriesMap :=
  fun a => if a = address then some count else m a

/-- The failure count recorded for an address; an absent entry counts as zero. -/
def RetriesMap.count (m : RetriesMap) (address : String) : Nat := (m address).getD 0

/-- The expression `retriesMap.get(address) + 1 || 1`: for an absent entry
`undefined + 1` is `NaN`, which is falsy, so the value is `1`; a stored number `n`
gives `n + 1` unless that is `0`. -/
def nextCount (m : RetriesMap) (address : String) : Nat :=
  match m address with
  | some n => if n + 1 = 0 then 1 else n + 1
  | none => 1

/-- Source `handleRetries`; `maxRetries` is `config.retries`. Returns the
result and the new state of `retriesMap`. -/
def handleRetries (maxRetries : Nat) (m : RetriesMap) (address : String) : Bool × RetriesMap :=
  let count := nextCount m address
  (decide (count < maxRetries), m.set address count)

/-- A test harness: `n` successive calls `handleRetries(address)`, returning the
results in call order and the final map. -/
def callHandleRetries (maxRetries : Nat) (address : String) : Nat → RetriesMap → List Bool × RetriesMap
  | 0, m => ([], m)
  | n + 1, m =>
    let (b, m1) := handleRetries maxRetries m address
    let (bs, m2) := callHandleRetries maxRetries address n m1
    (b :: bs, m2)

/-! ## Errors and collaborators -/

/-- The errors the program raises or receives, one constructor per `throw` site. -/
inductive JsError where
  /-- an error raised by a collaborator (transport failure, builder, signer, body parsing) -/
  | thrown (message : String)
  /-- line 58: the submission answered with a status of 400 or more -/
  | submitRejected (errorText : String) (status : Nat)
  /-- line 76: the fetch by hash answered with a status of 400 or more other than 404 -/
  | fetchRejected (status : Nat)
  /-- line 87: the fetched record carries a `status` of 400 or more other than 404 -/
  | pollRejected (text : Option String) (status : Nat)
  /-- lines 98 and 108: an iteration cap was reached -/
  | timedOut (txnHash : Option String)
  /-- line 115 -/
  | notSuccessful (text : Option String) (txnHash : Option String)
  /-- `ReferenceError: name is not defined` -/
  | referenceError (name : String)
deriving DecidableEq, Repr

/-- How a template literal prints an optional string. -/
def showOpt : Option String → String
  | some s => s
  | none => "undefined"

/-- The `message` property of an error. -/
def JsError.message : JsError → String
  | .thrown message => message
  | .submitRejected errorText status =>
    "ApiError: " ++ errorText ++ ", Status Code: " ++ toString status
  | .fetchRejected status => "ApiError: " ++ toString status
  | .pollRejected text status =>
    "ApiError: " ++ showOpt text ++ ", Status Code: " ++ toString status
  | .timedOut txnHash => "Transaction " ++ showOpt txnHash ++ " timed out"
  | .notSuccessful text txnHash => showOpt text ++ " - " ++ showOpt txnHash
  | .referenceError name => name ++ " is not defined"

/-- The properties the program reads from the parsed JSON body of a fetch by hash. -/
structure TxnRecord where
  /-- the body's `status` property, when it holds a number -/
  status : Option Nat
  /-- the body's `type` property -/
  type : Option String
  /-- whether the body's `success` property is truthy -/
  success : Bool
  /-- the body's `text` property -/
  text : Option String
deriving DecidableEq, Repr

/-- An HTTP response: its status, and the outcomes of `response.text()` and of
`response.json()` (reduced to the properties the program reads). -/
structure HttpResponse (β : Type) where
  status : Nat
  text : Except JsError String
  json : Except JsError β

/-- Source `AptosAccount`, reduced to `address().toString()`. -/
structure Account where
  address : String
deriving DecidableEq, Repr

/-- The return value of `generatePayload`: the resource identifier and the three arrays. -/
structure DrawArguments where
  resourceId : String
  axisX : List Int
  axisY : List Int
  colors : List Int
deriving DecidableEq, Repr

/-- The entry-function payload built in `drawGraffiti`. -/
structure Payload where
  function : String
  arguments : DrawArguments
deriving DecidableEq, Repr

/-- The configuration and the behaviour of the collaborators. Each oracle gives
the outcome of the n-th call made to it, counting from zero. -/
structure Env where
  /-- `config.retries` -/
  retries : Nat
  /-- `client.generateTransaction(...)` -/
  generateTransaction : Nat → Except JsError Unit
  /-- `client.signTransaction(...)` -/
  signTransaction : Nat → Except JsError Unit
  /-- `new HttpsProxyAgent(proxy)` followed by the POST to `/transactions`, for
  the n-th call of `submitTransactionProxy` and the route it was given (`none`
  for `undefined`); the JSON body is reduced to its `hash` property -/
  post : Nat → Option String → Except JsError (HttpResponse (Option String))
  /-- `new HttpsProxyAgent(proxy)` followed by the GET of `/transactions/by_hash/...` -/
  get : Nat → Except JsError (HttpResponse TxnRecord)
  /-- `coinClient.checkBalance(account)` -/
  coinBalance : Nat → Except JsError Nat
  /-- `JSON.parse(s).message` when that evaluates to a string, `none` when the
  evaluation throws or gives no string -/
  jsonMessage : String → Option String

/-- The mutable state of the process, with counters of the calls made so far. -/
structure World where
  retriesMap : RetriesMap
  rng : Rng
  /-- calls of `client.generateTransaction` -/
  builds : Nat
  /-- calls of `client.signTransaction` -/
  signs : Nat
  /-- calls of `submitTransactionProxy`, each with the route it was given -/
  submits : List (Option String)
  /-- calls of `getTransactionByHash` -/
  gets : Nat
  /-- calls of `transactionPendingProxy` -/
  polls : Nat
  /-- calls of `coinClient.checkBalance` -/
  balanceChecks : Nat
  /-- total of the milliseconds passed to `timeout` -/
  slept : Nat
  /-- the arguments of each invocation of `sendTransaction` -/
  sends : List (Account × Payload × Option String)

/-- The result of an operation that may throw, with the state it leaves. -/
abbrev Outcome (α : Type) := Except JsError α × World

/-! ## Submission and polling (source lines 43-118) -/

/-- Source `submitTransactionProxy`; the result is `responseData.hash`. -/
def submitTransactionProxy (env : Env) (proxy : Option String) (w : World) :
    Outcome (Option String) :=
  let w1 := { w with submits := w.submits ++ [proxy] }
  match env.post w.submits.length proxy with
  | .error e => (.error e, w1)
  | .ok response =>
    if response.status ≥ 400 then
      match response.text with
      | .error e => (.error e, w1)
      | .ok errorText => (.error (.submitRejected errorText response.status), w1)
    else (response.json, w1)

/-- Source `getTransactionByHash`. -/
def getTransactionByHash (env : Env) (w : World) : Outcome TxnRecord :=
  let w1 := { w with gets := w.gets + 1 }
  match env.get w.gets with
  | .error e => (.error e, w1)
  | .ok response =>
    if response.status ≠ 404 ∧ response.status ≥ 400 then
      (.error (.fetchRejected response.status), w1)
    else (response.json, w1)

/-- Source `transactionPendingProxy`. The `status` tested here is a property
of the parsed JSON body returned by `getTransactionByHash`. -/
def transactionPendingProxy (env : Env) (w : World) : Outcome Bool :=
  match getTransactionByHash env { w with polls := w.polls + 1 } with
  | (.error e, w1) => (.error e, w1)
  | (.ok response, w1) =>
    match response.status with
    | some status =>
      if status = 404 then (.ok true, w1)
      else if status ≥ 400 then (.error (.pollRejected response.text status), w1)
      else (.ok (decide (response.type = some "pending_transaction")), w1)
    | none => (.ok (decide (response.type = some "pending_transaction")), w1)

/-- The first `while` loop of `waitForTransactionProxy` (lines 96-102);
`none` when the fuel runs out. -/
def pendingLoop (env : Env) (txnHash : Option String) :
    Nat → Nat → World → Option (Outcome Unit)
  | 0, _, _ => none
  | fuel + 1, count, w =>
    match transactionPendingProxy env w with
    | (.error e, w1) => some (.error e, w1)
    | (.ok true, w1) =>
      if count ≥ 50 then some (.error (.timedOut txnHash), w1)
      else pendingLoop env txnHash fuel (count + 1) { w1 with slept := w1.slept + 1000 }
    | (.ok false, w1) => some (.ok (), w1)

/-- The second `while` loop of `waitForTransactionProxy` (lines 106-113);
`none` when the fuel runs out. -/
def successLoop (env : Env) (txnHash : Option String) :
    Nat → Nat → TxnRecord → World → Option (Outcome TxnRecord)
  | 0, _, _, _ => none
  | fuel + 1, count, response, w =>
    if !response.success then
      if count ≥ 50 then some (.error (.timedOut txnHash), w)
      else
        match getTransactionByHash env w with
        | (.error e, w1) => some (.error e, w1)
        | (.ok response1, w1) =>
          successLoop env txnHash fuel (count + 1) response1 { w1 with slept := w1.slept + 1000 }
    else some (.ok response, w)

/-- Source `waitForTransactionProxy`. Each loop tests its guard at most 51
times (`count` from 0 to 50), which is the fuel given. -/
def waitForTransactionProxy (env : Env) (txnHash : Option String) (w : World) :
    Option (Outcome TxnRecord) :=
  match pendingLoop env txnHash 51 0 w with
  | none => none
  | some (.error e, w1) => some (.error e, w1)
  | some (.ok (), w1) =>
    match getTransactionByHash env w1 with
    | (.error e, w2) => some (.error e, w2)
    | (.ok response, w2) =>
      match successLoop env txnHash 51 0 response w2 with
      | none => none
      | some (.error e, w3) => some (.error e, w3)
      | some (.ok response1, w3) =>
        if !response1.success then
          some (.error (.notSuccessful response1.text txnHash), w3)
        else some (.ok response1, w3)

/-! ## sendTransaction (source lines 120-144) -/

/-- The `try` block of `sendTransaction` (lines 122-133). -/
def trySend (env : Env) (proxy : Option String) (w : World) : Option (Outcome TxnRecord) :=
  let (r, rng1) := w.rng.next
  let _maxGasAmount := generateRandomNumber 700 2000 r
  let w1 := { w with rng := rng1, builds := w.builds + 1 }
  match env.generateTransaction w.builds with
  | .error e => some (.error e, w1)
  | .ok _ =>
    let w2 := { w1 with signs := w1.signs + 1 }
    match env.signTransaction w1.signs with
    | .error e => some (.error e, w2)
    | .ok _ =>
      match submitTransactionProxy env proxy w2 with
      | (.error e, w3) => some (.error e, w3)
      | (.ok txnHash, w3) => waitForTransactionProxy env txnHash w3

/-- Source `sendTransaction`. The fuel bounds the depth of the recursive
retries; `none` when it runs out. The function returns no value (`undefined`)
on every path that returns. -/
def sendTransaction (env : Env) :
    Nat → Account → Payload → Option String → World → Option (Outcome Unit)
  | 0, _, _, _, _ => none
  | fuel + 1, sender, payload, proxy, w =>
    match trySend env proxy { w with sends := w.sends ++ [(sender, payload, proxy)] } with
    | none => none
    | some (.ok _, w1) => some (.ok (), w1)
    | some (.error _, w1) =>
      let (retry, m) := handleRetries env.retries w1.retriesMap sender.address
      let w2 := { w1 with retriesMap := m }
      if retry then
        sendTransaction env fuel sender payload none { w2 with slept := w2.slept + 10000 }
      else some (.ok (), w2)

/-! ## checkBalance (source lines 172-193) -/

/-- Whether `s.includes(t)`. -/
def includes (s t : String) : Bool := decide (t.toList <:+: s.toList)

/-- The variables holding an account that are in scope in the body of
`checkBalance`: its parameter `account`. The module declares no `sender` at
top level (`sender` is a parameter of `sendTransaction` and `drawGraffiti` only). -/
def checkBalanceScope (account : Account) (name : String) : Except JsError Account :=
  if name = "account" then .ok account else .error (.referenceError name)

/-- Source `checkBalance`. The result is the balance in APT, or `none` for
`undefined`. The fuel bounds the depth of the recursive retries. -/
def checkBalance (env : Env) : Nat → Account → World → Option (Outcome (Option Rat))
  | 0, _, _ => none
  | fuel + 1, account, w =>
    let w1 := { w with balanceChecks := w.balanceChecks + 1 }
    match env.coinBalance w.balanceChecks with
    | .ok octas => some (.ok (some ((octas : Rat) / 100000000)), w1)
    | .error err =>
      if (match env.jsonMessage err.message with
          | some message => includes message "Resource not found"
          | none => false) then
        some (.ok (some 0), w1)
      else
        match checkBalanceScope account "sender" with
        | .error e => some (.error e, w1)
        | .ok sender =>
          let (retry, m) := handleRetries env.retries w1.retriesMap sender.address
          let w2 := { w1 with retriesMap := m }
          if retry then checkBalance env fuel account { w2 with slept := w2.slept + 2000 }
          else some (.ok none, w2)

/-! ## generatePayload and drawGraffiti (source lines 147-170) -/

/-- The `for (let point of pointsArray)` loop of `generatePayload`, with the
three arrays as built so far. -/
def generatePayloadLoop :
    List Point → List Int → List Int → List Int → Rng → (List Int × List Int × List Int) × Rng
  | [], axisX, axisY, colors, rng => ((axisX, axisY, colors), rng)
  | point :: rest, axisX, axisY, colors, rng =>
    let (r, rng1) := rng.next
    generatePayloadLoop rest (axisX ++ [point.x]) (axisY ++ [point.y])
      (colors ++ [generateRandomNumber 0 7 r]) rng1

/-- Source `generatePayload`. -/
def generatePayload (pointsArray : List Point) (rng : Rng) : DrawArguments × Rng :=
  let (arrays, rng1) := generatePayloadLoop pointsArray [] [] [] rng
  ({ resourceId := "0x5d45bb2a6f391440ba10444c7734559bd5ef9053930e3ef53d05be332518522b"
     axisX := arrays.1, axisY := arrays.2.1, colors := arrays.2.2 }, rng1)

/-- Source `drawGraffiti` (without its log line). -/
def drawGraffiti (env : Env) (fuel : Nat) (sender : Account) (payload : DrawArguments)
    (proxy : Option String) (w : World) : Option (Outcome Unit) :=
  sendTransaction env fuel sender
    { function := "0x915efe6647e0440f927d46e39bcb5eb040a7e567e1756e002073bc6e26f2cd23::canvas_token::draw"
      arguments := payload } proxy w

/-! ## Concrete inputs used by the examples below -/

/-- A sequence of draws: `1/2` first, then always `0`. -/
def halfThenZero : Rng := fun n => if n = 0 then ⟨1, 2, by decide⟩ else ⟨0, 1, by decide⟩

/-- A sequence of draws that is always `0`. -/
def alwaysZero : Rng := fun _ => ⟨0, 1, by decide⟩

/-- The state of a fresh process: empty `retriesMap`, nothing called yet. -/
def World.init (rng : Rng) : World :=
  { retriesMap := RetriesMap.empty, rng := rng, builds := 0, signs := 0, submits := [],
    gets := 0, polls := 0, balanceChecks := 0, slept := 0, sends := [] }

/-- The error an operation ended with, if it ended with one. -/
def thrownBy {α : Type} : Option (Outcome α) → Option JsError
  | some (.error e, _) => some e
  | _ => none

/-- The state an operation ended in. -/
def worldAfter {α : Type} : Option (Outcome α) → Option World
  | some (_, w) => some w
  | none => none

/-- The effect of `new HttpsProxyAgent(proxy)` on the request that follows it.
The `https-proxy-agent` library is not part of the repository: its constructor
throws when it is given `undefined`, so no request is made then; with a route
the request gets the answer of the remote. -/
def throughProxy {β : Type} (route : Option String)
    (answer : Except JsError (HttpResponse β)) : Except JsError (HttpResponse β) :=
  match route with
  | none => .error (.thrown "Invalid URL")
  | some _ => answer

/-- The HTTP status of an answer, if there was an answer. -/
def statusOf {β : Type} : Except JsError (HttpResponse β) → Option Nat
  | .ok response => some response.status
  | .error _ => none

/-- A record of a transaction that is still pending. -/
def pendingRecord : TxnRecord :=
  { status := none, type := some "pending_transaction", success := false, text := none }

/-- Collaborators for which building, signing and submitting succeed and every
fetch by hash answers 200 with a pending record. -/
def alwaysPending : Env :=
  { retries := 3
    generateTransaction := fun _ => .ok ()
    signTransaction := fun _ => .ok ()
    post := fun _ route =>
      throughProxy route (.ok { status := 202, text := .ok "", json := .ok (some "0xabc") })
    get := fun _ => .ok { status := 200, text := .ok "", json := .ok pendingRecord }
    coinBalance := fun _ => .ok 100000000
    jsonMessage := fun _ => none }

/-- Collaborators for which every remote call fails with a transport error whose
message is not JSON. -/
def alwaysFailing : Env :=
  { retries := 3
    generateTransaction := fun _ => .ok ()
    signTransaction := fun _ => .ok ()
    post := fun _ _ => .error (.thrown "connect ECONNREFUSED")
    get := fun _ => .error (.thrown "connect ECONNREFUSED")
    coinBalance := fun _ => .error (.thrown "connect ECONNREFUSED")
    jsonMessage := fun _ => none }

/-- An account used in the examples. -/
def alice : Account := { address := "0xa11ce" }

/-- A payload used in the examples. -/
def onePixel : Payload :=
  { function := "0x915efe6647e0440f927d46e39bcb5eb040a7e567e1756e002073bc6e26f2cd23::canvas_token::draw"
    arguments :=
      { resourceId := "0x5d45bb2a6f391440ba10444c7734559bd5ef9053930e3ef53d05be332518522b"
        axisX := [1], axisY := [2], colors := [3] } }

/-- A record of a transaction that was executed with success. -/
def confirmedRecord : TxnRecord :=
  { status := none, type := some "user_transaction", success := true, text := none }

/-- A record of a transaction that was executed and failed. -/
def failedRecord : TxnRecord :=
  { status := none, type := some "user_transaction", success := false,
    text := some "Move abort" }

/-- The body of a "not found" answer as a test stub gives it: a `status` of 404. -/
def notFoundBody : TxnRecord :=
  { status := some 404, type := none, success := false, text := none }

/-- Collaborators whose first three fetches by hash answer 404 and whose later
fetches answer 200 with `confirmedRecord`. -/
def notFoundThenConfirmed : Env :=
  { retries := 3
    generateTransaction := fun _ => .ok ()
    signTransaction := fun _ => .ok ()
    post := fun _ route =>
      throughProxy route (.ok { status := 202, text := .ok "", json := .ok (some "0xabc") })
    get := fun n =>
      if n < 3 then .ok { status := 404, text := .ok "", json := .ok notFoundBody }
      else .ok { status := 200, text := .ok "", json := .ok confirmedRecord }
    coinBalance := fun _ => .ok 100000000
    jsonMessage := fun _ => none }

/-- Collaborators whose remote answers the first submission with 500 and every
later one with 202, every fetch by hash answering 200 with `confirmedRecord`;
a submission is made through `throughProxy`, so one without a route fails
before the remote is asked. -/
def rejectedThenConfirmed : Env :=
  { retries := 3
    generateTransaction := fun _ => .ok ()
    signTransaction := fun _ => .ok ()
    post := fun n route =>
      throughProxy route
        (if n = 0 then
          .ok { status := 500, text := .ok "Internal Server Error", json := .ok none }
        else .ok { status := 202, text := .ok "", json := .ok (some "0xabc") })
    get := fun _ => .ok { status := 200, text := .ok "", json := .ok confirmedRecord }
    coinBalance := fun _ => .ok 100000000
    jsonMessage := fun _ => none }

/-- Collaborators for which the transaction is executed at once and every
fetch by hash answers 200 with `failedRecord`. -/
def alwaysUnsuccessful : Env :=
  { retries := 3
    generateTransaction := fun _ => .ok ()
    signTransaction := fun _ => .ok ()
    post := fun _ route =>
      throughProxy route (.ok { status := 202, text := .ok "", json := .ok (some "0xabc") })
    get := fun _ => .ok { status := 200, text := .ok "", json := .ok failedRecord }
    coinBalance := fun _ => .ok 100000000
    jsonMessage := fun _ => none }

/-- What fetching and polling leave as they were. -/
def Untouched (w w' : World) : Prop :=
  w'.retriesMap = w.retriesMap ∧ w'.sends = w.sends ∧ w'.submits = w.submits ∧
  w'.builds = w.builds ∧ w'.signs = w.signs ∧ w'.balanceChecks = w.balanceChecks

/-! ## Lemmas on the shuffle -/

theorem cons_perm_set {α : Type} (a b : α) :
    ∀ (t : List α) (n : Nat), t[n]? = some b → (b :: t.set n a).Perm (a :: t)
  | [], n, h => by simp at h
  | c :: t, 0, h => by
    simp at h
    subst h
    simpa using List.Perm.swap a c t
  | c :: t, n + 1, h => by
    simp at h
    have ih := cons_perm_set a b t n h
    simp only [List.set_cons_succ]
    exact (List.Perm.swap c b _).trans (((ih.cons c)).trans (List.Perm.swap a c t))

theorem swapAt_perm {α : Type} : ∀ (l : List α) (i j : Nat), (swapAt l i j).Perm l
  | [], i, j => by simp [swapAt]
  | c :: t, 0, 0 => by simp [swapAt]
  | c :: t, 0, j + 1 => by
    unfold swapAt
    cases hj : (c :: t)[j + 1]? with
    | none => simp
    | some b =>
      simp only [List.getElem?_cons_zero, List.set_cons_zero, List.set_cons_succ]
      simp at hj
      exact cons_perm_set c b t j hj
  | c :: t, i + 1, 0 => by
    unfold swapAt
    cases hi : (c :: t)[i + 1]? with
    | none => simp
    | some a =>
      simp only [List.getElem?_cons_zero, List.set_cons_zero, List.set_cons_succ]
      simp at hi
      exact cons_perm_set c a t i hi
  | c :: t, i + 1, j + 1 => by
    have ih := swapAt_perm t i j
    unfold swapAt at ih ⊢
    simp only [List.getElem?_cons_succ, List.set_cons_succ]
    cases hi : t[i]? with
    | none => simp
    | some a =>
      cases hj : t[j]? with
      | none => simp
      | some b =>
        simp only [hi, hj] at ih
        exact ih.cons c

theorem shuffleFrom_perm {α : Type} :
    ∀ (i : Nat) (array : List α) (rng : Rng), (shuffleFrom i array rng).1.Perm array
  | 0, array, rng => by simp [shuffleFrom]
  | i + 1, array, rng => by
    simp only [shuffleFrom, Rng.next]
    exact (shuffleFrom_perm i _ _).trans (swapAt_perm array _ _)

theorem shuffleArray_perm {α : Type} (array : List α) (rng : Rng) :
    (shuffleArray array rng).1.Perm array :=
  shuffleFrom_perm _ array rng

/-! ## Lemmas on the walk -/

theorem jsChainGe_zero (a b : Int) : jsChainGe a b 0 = true := by
  unfold jsChainGe
  split <;> simp

theorem acceptable_iff (usedPoints : List Point) (point : Point) :
    acceptable usedPoints point = true ↔ point ∉ usedPoints := by
  simp only [acceptable, weightStart, lengthStart, jsChainGe_zero, Bool.and_true]
  simp only [Bool.not_eq_true', List.any_eq_false, Point.equals, Bool.and_eq_true,
    decide_eq_true_eq]
  constructor
  · intro h hmem
    exact h point hmem ⟨rfl, rfl⟩
  · intro h q hq hqp
    apply h
    have : q = point := by
      cases q; cases point; simp_all
    exact this ▸ hq

theorem getPossibleDirections_some {usedPoints : List Point} {h : usedPoints ≠ []} {rng : Rng}
    {p : Point} (hg : (getPossibleDirections usedPoints h rng).1 = some p) :
    p ∈ pointsAround (usedPoints.getLast h) ∧ p ∉ usedPoints := by
  simp only [getPossibleDirections] at hg
  constructor
  · exact (shuffleArray_perm _ rng).subset (List.mem_of_find?_eq_some hg)
  · have := List.find?_some hg
    exact (acceptable_iff _ _).1 this

theorem getPossibleDirections_none {usedPoints : List Point} {h : usedPoints ≠ []} {rng : Rng}
    (hg : (getPossibleDirections usedPoints h rng).1 = none) :
    ∀ q ∈ pointsAround (usedPoints.getLast h), q ∈ usedPoints := by
  simp only [getPossibleDirections] at hg
  intro q hq
  have hq1 : q ∈ (shuffleArray (pointsAround (usedPoints.getLast h)) rng).1 :=
    (shuffleArray_perm _ rng).symm.subset hq
  have := List.find?_eq_none.1 hg q hq1
  by_contra hn
  exact this ((acceptable_iff _ _).2 hn)

/-- The loop of `createLine` only ever appends an unused neighbour of the
current tail: a property kept by such steps holds of the result. -/
theorem createLineLoop_invariant (P : List Point → Prop) (lineLength : Int)
    (hstep : ∀ (pts : List Point) (h : pts ≠ []) (p : Point), P pts →
      p ∈ pointsAround (pts.getLast h) → p ∉ pts → P (pts ++ [p])) :
    ∀ (fuel : Nat) (pts : List Point) (h : pts ≠ []) (rng : Rng), P pts →
      P (createLineLoop lineLength fuel pts h rng).1
  | 0, pts, h, rng, hP => by simpa [createLineLoop] using hP
  | fuel + 1, pts, h, rng, hP => by
    unfold createLineLoop
    split
    · cases hg : getPossibleDirections pts h rng with
      | mk o rng1 =>
        cases o with
        | none => simpa using hP
        | some p =>
          have hp := getPossibleDirections_some (p := p) (by rw [hg])
          simp only
          exact createLineLoop_invariant P lineLength hstep fuel _ _ _ (hstep pts h p hP hp.1 hp.2)
    · simpa using hP

/-- The result of the loop does not depend on the fuel once the fuel covers
the distance from the current length to `lineLength`. -/
theorem createLineLoop_fuel (lineLength : Int) :
    ∀ (f g : Nat) (pts : List Point) (h : pts ≠ []) (rng : Rng),
      lineLength ≤ (pts.length : Int) + f → lineLength ≤ (pts.length : Int) + g →
      createLineLoop lineLength f pts h rng = createLineLoop lineLength g pts h rng
  | 0, 0, pts, h, rng, _, _ => rfl
  | 0, g + 1, pts, h, rng, hf, _ => by
    have : ¬ ((pts.length : Int) < lineLength) := by simp at hf; omega
    simp [createLineLoop, this]
  | f + 1, 0, pts, h, rng, _, hg => by
    have : ¬ ((pts.length : Int) < lineLength) := by simp at hg; omega
    simp [createLineLoop, this]
  | f + 1, g + 1, pts, h, rng, hf, hg => by
    unfold createLineLoop
    split
    · cases hgp : getPossibleDirections pts h rng with
      | mk o rng1 =>
        cases o with
        | none => rfl
        | some p =>
          simp only
          apply createLineLoop_fuel lineLength f g
          · simp only [List.length_append, List.length_singleton]; push_cast; omega
          · simp only [List.length_append, List.length_singleton]; push_cast; omega
    · rfl

/-- With enough fuel the loop stops either at `lineLength` points or at a tail
all of whose neighbours are already in the walk. -/
theorem createLineLoop_stop (lineLength : Int) (fuel : Nat) :
    ∀ (pts : List Point) (h : pts ≠ []) (rng : Rng) (res : List Point × Rng),
      createLineLoop lineLength fuel pts h rng = res →
      lineLength ≤ (pts.length : Int) + fuel → (pts.length : Int) ≤ lineLength →
      (res.1.length : Int) = lineLength ∨
      ∀ tail ∈ res.1.getLast?, ∀ q ∈ pointsAround tail, q ∈ res.1 := by
  induction fuel with
  | zero =>
    intro pts h rng res hres hf hl
    left
    rw [createLineLoop] at hres
    subst hres
    simp at hf
    simp only
    omega
  | succ fuel ih =>
    intro pts h rng res hres hf hl
    rw [createLineLoop] at hres
    split at hres
    · generalize hg : getPossibleDirections pts h rng = r at hres
      rcases r with ⟨_ | p, rng1⟩
      · right
        simp only at hres
        subst hres
        intro tail ht
        rw [List.getLast?_eq_getLast _ h] at ht
        simp only [Option.mem_def, Option.some.injEq] at ht
        subst ht
        exact getPossibleDirections_none (by rw [hg])
      · simp only at hres
        refine ih _ _ _ res hres ?_ ?_
        · simp only [List.length_append, List.length_singleton]; push_cast; omega
        · simp only [List.length_append, List.length_singleton]; push_cast; omega
    · left
      subst hres
      simp only
      omega

theorem createLineLoop_length_ge (lineLength : Int) (fuel : Nat) (pts : List Point)
    (h : pts ≠ []) (rng : Rng) :
    pts.length ≤ (createLineLoop lineLength fuel pts h rng).1.length := by
  refine createLineLoop_invariant (fun l => pts.length ≤ l.length) lineLength ?_ fuel pts h rng
    (le_refl _)
  intro l _ p hl _ _
  simp only [List.length_append, List.length_singleton]
  omega

theorem createLine_length_pos (maxLineLength : Int) (rng : Rng) :
    1 ≤ (createLine maxLineLength rng).1.length := by
  simp only [createLine, Rng.next]
  have h := createLineLoop_length_ge (lineLengthOf maxLineLength (rng 0))
    (lineLengthOf maxLineLength (rng 0)).toNat
    [⟨floorRandomTimes (rng (0 + 1)) (lengthStop - lengthStart + 1) + lengthStart,
      floorRandomTimes (rng (0 + 1 + 1)) (weightStop - weightStart + 1) + weightStart⟩]
    (by simp) (fun n => rng (n + 1 + 1 + 1))
  simpa using h

theorem drawLines_length_ge (maxLineLength : Int) :
    ∀ (n : Nat) (resultArr : List Point) (rng : Rng),
      resultArr.length + n ≤ (drawLines maxLineLength n resultArr rng).1.length
  | 0, resultArr, rng => by simp [drawLines]
  | n + 1, resultArr, rng => by
    simp only [drawLines]
    have h1 := drawLines_length_ge maxLineLength n
      (resultArr ++ (createLine maxLineLength rng).1) (createLine maxLineLength rng).2
    have h2 := createLine_length_pos maxLineLength rng
    simp only [List.length_append] at h1
    omega

theorem floorRandomTimes_nonneg (r : Draw) {n : Int} (hn : 0 ≤ n) :
    0 ≤ floorRandomTimes r n :=
  Int.ediv_nonneg (Int.mul_nonneg (Int.ofNat_nonneg _) hn) (Int.ofNat_nonneg _)

theorem floorRandomTimes_lt (r : Draw) {n : Int} (hn : 0 < n) :
    floorRandomTimes r n < n := by
  have hlt : (r.num : Int) < (r.den : Int) := by exact_mod_cast r.lt
  have hden : (0 : Int) < (r.den : Int) := by omega
  apply Int.ediv_lt_of_lt_mul hden
  rw [Int.mul_comm n]
  exact Int.mul_lt_mul_of_pos_right hlt hn

theorem pointsAround_adjacent (c q : Point) (hq : q ∈ pointsAround c) :
    max |c.x - q.x| |c.y - q.y| = 1 := by
  simp only [pointsAround, List.mem_cons, List.mem_singleton, List.not_mem_nil, or_false] at hq
  rcases hq with h | h | h | h | h | h | h | h <;> subst h <;> simp

theorem createLine_nodup (maxLineLength : Int) (rng : Rng) :
    (createLine maxLineLength rng).1.Nodup := by
  simp only [createLine, Rng.next]
  refine createLineLoop_invariant List.Nodup _ ?_ _ _ _ _ (by simp)
  intro pts _ p hP _ hnot
  rw [List.nodup_append]
  refine ⟨hP, by simp, ?_⟩
  intro a ha hb
  simp only [List.mem_singleton] at hb
  subst hb
  exact hnot ha

/-! ## The claims on the grid walk -/

/-- C1 (bounds invariant), evaluated where it fails: with the draws `1/2, 0, 0, 0, ...`
`createLine(2)` starts at `(0, 0)` and then steps to `(1, -1)`, whose `y` is below
`lengthStart = 0`; the chained comparison of `getPossibleDirections` rejects no point. -/
theorem createLine_leaves_grid :
    (createLine 2 halfThenZero).1 = [⟨0, 0⟩, ⟨1, -1⟩] ∧
    acceptable [⟨0, 0⟩] ⟨1, -1⟩ = true ∧
    ¬ ∀ p ∈ (createLine 2 halfThenZero).1, 0 ≤ p.x ∧ p.x ≤ 999 ∧ 0 ≤ p.y ∧ p.y ≤ 999 := by
  with_unfolding_all decide

/-- C2 as stated fails: with one line (`countLines = 1`) and `listMaxSize = 10`,
`getPointsForDraw` can return a single point, not 10. -/
theorem getPointsForDraw_short :
    countLinesOf (alwaysZero 0) = 1 ∧ generateRandomNumber 10 10 (alwaysZero 1) = 10 ∧
    (getPointsForDraw 10 10 alwaysZero).1.length = 1 ∧
    (getPointsForDraw 10 10 alwaysZero).1.length ≠ 10 := by
  with_unfolding_all decide

/-- C2, amended: for a drawn target `N ≥ 1` and the drawn number of lines `k`
(always between 1 and 4), `getPointsForDraw` returns the first `N` points of the
concatenation of the `k` walks made by `createLine(floor(N / k))`: at least one
point, at most `N` points, and exactly `min N (total length of the walks)`. -/
theorem getPointsForDraw_length (pixelsFrom pixelsTo : Int) (rng : Rng)
    (hN : 1 ≤ generateRandomNumber pixelsFrom pixelsTo (rng 1)) :
    1 ≤ countLinesOf (rng 0) ∧ countLinesOf (rng 0) ≤ 4 ∧
    (getPointsForDraw pixelsFrom pixelsTo rng).1 =
      (drawLines (generateRandomNumber pixelsFrom pixelsTo (rng 1) / (countLinesOf (rng 0) : Int))
        (countLinesOf (rng 0)) [] (fun n => rng (n + 2))).1.take
        (generateRandomNumber pixelsFrom pixelsTo (rng 1)).toNat ∧
    ((getPointsForDraw pixelsFrom pixelsTo rng).1.length : Int) =
      min (generateRandomNumber pixelsFrom pixelsTo (rng 1))
        ((drawLines (generateRandomNumber pixelsFrom pixelsTo (rng 1) / (countLinesOf (rng 0) : Int))
          (countLinesOf (rng 0)) [] (fun n => rng (n + 2))).1.length : Int) ∧
    1 ≤ (getPointsForDraw pixelsFrom pixelsTo rng).1.length ∧
    ((getPointsForDraw pixelsFrom pixelsTo rng).1.length : Int) ≤
      generateRandomNumber pixelsFrom pixelsTo (rng 1) := by
  have hk1 : 1 ≤ countLinesOf (rng 0) := by simp [countLinesOf]
  have hk4 : countLinesOf (rng 0) ≤ 4 := by
    have h1 := floorRandomTimes_lt (rng 0) (n := 4) (by decide)
    simp only [countLinesOf]
    omega
  have heq : (getPointsForDraw pixelsFrom pixelsTo rng).1 =
      (drawLines (generateRandomNumber pixelsFrom pixelsTo (rng 1) / (countLinesOf (rng 0) : Int))
        (countLinesOf (rng 0)) [] (fun n => rng (n + 2))).1.take
        (generateRandomNumber pixelsFrom pixelsTo (rng 1)).toNat := by
    have h0 : (0 : Int) ≤ generateRandomNumber pixelsFrom pixelsTo (rng 1) := by omega
    simp only [getPointsForDraw, pointsForDrawWith, Rng.next, sliceFromZero, h0, if_true]
  have hlen := drawLines_length_ge
    (generateRandomNumber pixelsFrom pixelsTo (rng 1) / (countLinesOf (rng 0) : Int))
    (countLinesOf (rng 0)) [] (fun n => rng (n + 2))
  simp only [List.length_nil, Nat.zero_add] at hlen
  refine ⟨hk1, hk4, heq, ?_, ?_, ?_⟩
  · rw [heq, List.length_take]
    omega
  · rw [heq, List.length_take]
    omega
  · rw [heq, List.length_take]
    omega

/-- Witness for `getPointsForDraw_length`: the always-zero draws with
`config.pixelsCount = {from: 10, to: 10}`. -/
theorem getPointsForDraw_length_witness :
    1 ≤ generateRandomNumber 10 10 (alwaysZero 1) ∧
    1 ≤ (getPointsForDraw 10 10 alwaysZero).1.length :=
  ⟨by decide, (getPointsForDraw_length 10 10 alwaysZero (by decide)).2.2.2.2.1⟩

/-- C8 as stated fails: `createLine(5)` with all draws `0` returns the single
point `(0, 0)`, although `(1, 0)` is an unvisited neighbour inside the grid. -/
theorem createLine_short :
    (createLine 5 alwaysZero).1 = [⟨0, 0⟩] ∧
    ¬ ((createLine 5 alwaysZero).1.length = 5 ∨
      ∀ tail ∈ (createLine 5 alwaysZero).1.getLast?, ∀ q ∈ pointsAround tail,
        ¬ (q ∉ (createLine 5 alwaysZero).1 ∧ 0 ≤ q.x ∧ q.x ≤ 999 ∧ 0 ≤ q.y ∧ q.y ≤ 999)) := by
  with_unfolding_all decide

/-- C8, amended: for `maxLineLength ≥ 1` the target length of `createLine` is the
drawn `lineLength = floor(r * maxLineLength) + 1`, between 1 and `maxLineLength`;
the returned walk has exactly `lineLength` points unless extension stopped at a
tail with no neighbour that is both unvisited and inside the grid. -/
theorem createLine_length_or_boxed (maxLineLength : Int) (rng : Rng)
    (hmax : 1 ≤ maxLineLength) :
    1 ≤ lineLengthOf maxLineLength (rng 0) ∧
    lineLengthOf maxLineLength (rng 0) ≤ maxLineLength ∧
    (((createLine maxLineLength rng).1.length : Int) = lineLengthOf maxLineLength (rng 0) ∨
      ∀ tail ∈ (createLine maxLineLength rng).1.getLast?, ∀ q ∈ pointsAround tail,
        ¬ (q ∉ (createLine maxLineLength rng).1 ∧
          0 ≤ q.x ∧ q.x ≤ 999 ∧ 0 ≤ q.y ∧ q.y ≤ 999)) := by
  have h1 : 1 ≤ lineLengthOf maxLineLength (rng 0) := by
    have := floorRandomTimes_nonneg (rng 0) (n := maxLineLength) (by omega)
    simp only [lineLengthOf]
    omega
  have h2 : lineLengthOf maxLineLength (rng 0) ≤ maxLineLength := by
    have := floorRandomTimes_lt (rng 0) (n := maxLineLength) (by omega)
    simp only [lineLengthOf]
    omega
  refine ⟨h1, h2, ?_⟩
  have hstop := createLineLoop_stop (lineLengthOf maxLineLength (rng 0))
    (lineLengthOf maxLineLength (rng 0)).toNat
    [⟨floorRandomTimes (rng (0 + 1)) (lengthStop - lengthStart + 1) + lengthStart,
      floorRandomTimes (rng (0 + 1 + 1)) (weightStop - weightStart + 1) + weightStart⟩]
    (by simp) (fun n => rng (n + 1 + 1 + 1)) _ rfl
    (by simp only [List.length_singleton]; push_cast; omega)
    (by simp only [List.length_singleton]; push_cast; omega)
  simp only [createLine, Rng.next]
  rcases hstop with h | h
  · exact Or.inl h
  · right
    intro tail ht q hq hcon
    exact hcon.1 (h tail ht q hq)

/-- Witness for `createLine_length_or_boxed`: `createLine(5)` with all draws `0`. -/
theorem createLine_length_or_boxed_witness :
    (1 : Int) ≤ 5 ∧
    1 ≤ lineLengthOf 5 (alwaysZero 0) ∧
    lineLengthOf 5 (alwaysZero 0) ≤ 5 ∧
    (((createLine 5 alwaysZero).1.length : Int) = lineLengthOf 5 (alwaysZero 0) ∨
      ∀ tail ∈ (createLine 5 alwaysZero).1.getLast?, ∀ q ∈ pointsAround tail,
        ¬ (q ∉ (createLine 5 alwaysZero).1 ∧
          0 ≤ q.x ∧ q.x ≤ 999 ∧ 0 ≤ q.y ∧ q.y ≤ 999)) :=
  ⟨by decide, createLine_length_or_boxed 5 alwaysZero (by decide)⟩

/-- C9 (no self-intersection): in the walk returned by `createLine`, no two
distinct positions hold points with equal `x` and equal `y`, for every
`maxLineLength` and every sequence of draws. -/
theorem createLine_no_self_intersection (maxLineLength : Int) (rng : Rng) :
    (createLine maxLineLength rng).1.Pairwise (fun p q => ¬ (p.x = q.x ∧ p.y = q.y)) := by
  have h := createLine_nodup maxLineLength rng
  refine List.Pairwise.imp ?_ h
  intro p q hne heq
  apply hne
  cases p; cases q; simp_all

/-- C10 (step adjacency): every two consecutive points `p`, `q` of the walk
returned by `createLine` satisfy `max(|p.x - q.x|, |p.y - q.y|) = 1`. -/
theorem createLine_step_adjacent (maxLineLength : Int) (rng : Rng) :
    (createLine maxLineLength rng).1.Chain'
      (fun p q => max |p.x - q.x| |p.y - q.y| = 1) := by
  simp only [createLine, Rng.next]
  refine createLineLoop_invariant
    (List.Chain' (fun p q => max |p.x - q.x| |p.y - q.y| = 1)) _ ?_ _ _ _ _ (by simp)
  intro pts h p hP hp _
  refine hP.append (by simp) ?_
  intro c hc y hy
  rw [List.getLast?_eq_getLast _ h] at hc
  simp only [Option.mem_def, Option.some.injEq] at hc
  simp only [List.head?_cons, Option.mem_def, Option.some.injEq] at hy
  subst hc hy
  exact pointsAround_adjacent _ _ hp


/-! ## The claims on the retry ledger -/

theorem nextCount_eq (m : RetriesMap) (address : String) :
    nextCount m address = m.count address + 1 := by
  unfold nextCount RetriesMap.count
  cases m address <;> simp

theorem handleRetries_fst (maxRetries : Nat) (m : RetriesMap) (address : String) :
    (handleRetries maxRetries m address).1 = decide (m.count address + 1 < maxRetries) := by
  simp [handleRetries, nextCount_eq]

theorem handleRetries_count (maxRetries : Nat) (m : RetriesMap) (address : String) :
    (handleRetries maxRetries m address).2.count address = m.count address + 1 := by
  simp [handleRetries, nextCount_eq, RetriesMap.set, RetriesMap.count]

theorem callHandleRetries_results (maxRetries : Nat) (address : String) :
    ∀ (n : Nat) (m : RetriesMap),
      (callHandleRetries maxRetries address n m).1 =
        List.replicate (min n (maxRetries - 1 - m.count address)) true ++
        List.replicate (n - (maxRetries - 1 - m.count address)) false
  | 0, m => by simp [callHandleRetries]
  | n + 1, m => by
    have ih := callHandleRetries_results maxRetries address n
      (handleRetries maxRetries m address).2
    rw [handleRetries_count] at ih
    simp only [callHandleRetries, ih, handleRetries_fst]
    by_cases hlt : m.count address + 1 < maxRetries
    · have e1 : min (n + 1) (maxRetries - 1 - m.count address) =
          min n (maxRetries - 1 - (m.count address + 1)) + 1 := by omega
      have e2 : n + 1 - (maxRetries - 1 - m.count address) =
          n - (maxRetries - 1 - (m.count address + 1)) := by omega
      rw [e1, e2, List.replicate_succ]
      simp [hlt]
    · have e1 : maxRetries - 1 - m.count address = 0 := by omega
      have e2 : maxRetries - 1 - (m.count address + 1) = 0 := by omega
      rw [e1, e2]
      simp [hlt, List.replicate_succ]

/-- C3 (retry cap): for an address with no entry in `retriesMap` and
`config.retries = maxRetries ≥ 1`, the results of `n` successive calls
`handleRetries(address)` are `true` for the first `maxRetries - 1` calls and
`false` for every later call. -/
theorem handleRetries_retry_cap (maxRetries : Nat) (address : String) (m : RetriesMap)
    (n : Nat) (habsent : m address = none) (_hmax : 1 ≤ maxRetries) :
    (callHandleRetries maxRetries address n m).1 =
      List.replicate (min n (maxRetries - 1)) true ++
      List.replicate (n - (maxRetries - 1)) false := by
  have h := callHandleRetries_results maxRetries address n m
  have hc : m.count address = 0 := by simp [RetriesMap.count, habsent]
  simpa [hc] using h

/-- Witness for `handleRetries_retry_cap`: three retries allowed, five calls. -/
theorem handleRetries_retry_cap_witness :
    RetriesMap.empty "0xa11ce" = none ∧ 1 ≤ 3 ∧
    (callHandleRetries 3 "0xa11ce" 5 RetriesMap.empty).1 =
      List.replicate (min 5 (3 - 1)) true ++ List.replicate (5 - (3 - 1)) false :=
  ⟨rfl, by decide,
    handleRetries_retry_cap 3 "0xa11ce" RetriesMap.empty 5 rfl (by decide)⟩

/-- C4 as stated fails: with `config.retries = 1` and no entry for the address,
the count before the increment (0) is below 1, yet `handleRetries` returns `false`. -/
theorem handleRetries_pre_count_counterexample :
    RetriesMap.empty.count "0xa11ce" < 1 ∧
    (handleRetries 1 RetriesMap.empty "0xa11ce").1 = false ∧
    ¬ ((handleRetries 1 RetriesMap.empty "0xa11ce").1 = true ↔
      RetriesMap.empty.count "0xa11ce" < 1) := by
  decide

/-- C4, amended: `handleRetries(address)` stores the count of the address
increased by one (an absent entry counting as zero), leaves every other
address as it was, and returns `true` exactly when the count after the
increment is below `config.retries`. -/
theorem handleRetries_post_count (maxRetries : Nat) (m : RetriesMap) (address : String) :
    (handleRetries maxRetries m address).2 address = some (m.count address + 1) ∧
    (∀ other, other ≠ address → (handleRetries maxRetries m address).2 other = m other) ∧
    ((handleRetries maxRetries m address).1 = true ↔ m.count address + 1 < maxRetries) := by
  refine ⟨?_, ?_, ?_⟩
  · simp [handleRetries, nextCount_eq, RetriesMap.set]
  · intro other hne
    simp [handleRetries, RetriesMap.set, hne]
  · simp [handleRetries_fst]

/-! ## Lemmas on polling -/

theorem Untouched.refl (w : World) : Untouched w w := ⟨rfl, rfl, rfl, rfl, rfl, rfl⟩

theorem Untouched.trans {a b c : World} (h1 : Untouched a b) (h2 : Untouched b c) :
    Untouched a c := by
  obtain ⟨a1, a2, a3, a4, a5, a6⟩ := h1
  obtain ⟨b1, b2, b3, b4, b5, b6⟩ := h2
  exact ⟨b1.trans a1, b2.trans a2, b3.trans a3, b4.trans a4, b5.trans a5, b6.trans a6⟩

theorem getTransactionByHash_world (env : Env) (w : World) :
    (getTransactionByHash env w).2 = { w with gets := w.gets + 1 } := by
  unfold getTransactionByHash
  cases env.get w.gets with
  | error e => rfl
  | ok response =>
    simp only
    split <;> rfl

theorem transactionPendingProxy_world (env : Env) (w : World) :
    (transactionPendingProxy env w).2 = { w with polls := w.polls + 1, gets := w.gets + 1 } := by
  have h := getTransactionByHash_world env { w with polls := w.polls + 1 }
  unfold transactionPendingProxy
  generalize getTransactionByHash env { w with polls := w.polls + 1 } = r at h
  rcases r with ⟨_ | response, w1⟩
  · simpa using h
  · simp only at h
    subst h
    simp only
    cases response.status with
    | none => rfl
    | some status =>
      simp only
      split
      · rfl
      · split <;> rfl

theorem pendingLoop_untouched (env : Env) (txnHash : Option String) (fuel : Nat) :
    ∀ (count : Nat) (w : World) (o : Outcome Unit),
      pendingLoop env txnHash fuel count w = some o → Untouched w o.2 := by
  induction fuel with
  | zero => intro count w o h; simp [pendingLoop] at h
  | succ fuel ih =>
    intro count w o h
    rw [pendingLoop] at h
    have hw := transactionPendingProxy_world env w
    generalize transactionPendingProxy env w = r at h hw
    rcases r with ⟨_ | b, w1⟩
    · simp only [Option.some.injEq] at h
      subst h
      simp only at hw
      subst hw
      exact ⟨rfl, rfl, rfl, rfl, rfl, rfl⟩
    · simp only at hw
      subst hw
      cases b with
      | false =>
        simp only [Option.some.injEq] at h
        subst h
        exact ⟨rfl, rfl, rfl, rfl, rfl, rfl⟩
      | true =>
        simp only at h
        split at h
        · simp only [Option.some.injEq] at h
          subst h
          exact ⟨rfl, rfl, rfl, rfl, rfl, rfl⟩
        · have hrec := ih _ _ _ h
          exact Untouched.trans ⟨rfl, rfl, rfl, rfl, rfl, rfl⟩ hrec

theorem pendingLoop_returns (env : Env) (txnHash : Option String) (fuel : Nat) :
    ∀ (count : Nat) (w : World), 1 ≤ fuel → 51 ≤ fuel + count →
      ∃ o, pendingLoop env txnHash fuel count w = some o := by
  induction fuel with
  | zero => intro count w h; omega
  | succ fuel ih =>
    intro count w _ hf
    rw [pendingLoop]
    generalize transactionPendingProxy env w = r
    rcases r with ⟨_ | b, w1⟩
    · exact ⟨_, rfl⟩
    · cases b with
      | false => exact ⟨_, rfl⟩
      | true =>
        simp only
        split
        · exact ⟨_, rfl⟩
        · exact ih _ _ (by omega) (by omega)

theorem successLoop_untouched (env : Env) (txnHash : Option String) (fuel : Nat) :
    ∀ (count : Nat) (response : TxnRecord) (w : World) (o : Outcome TxnRecord),
      successLoop env txnHash fuel count response w = some o → Untouched w o.2 := by
  induction fuel with
  | zero => intro count response w o h; simp [successLoop] at h
  | succ fuel ih =>
    intro count response w o h
    rw [successLoop] at h
    split at h
    · split at h
      · simp only [Option.some.injEq] at h
        subst h
        exact Untouched.refl w
      · have hw := getTransactionByHash_world env w
        generalize getTransactionByHash env w = r at h hw
        rcases r with ⟨_ | response1, w1⟩
        · simp only [Option.some.injEq] at h
          subst h
          simp only at hw
          subst hw
          exact ⟨rfl, rfl, rfl, rfl, rfl, rfl⟩
        · simp only at hw
          subst hw
          simp only at h
          have hrec := ih _ _ _ _ h
          exact Untouched.trans ⟨rfl, rfl, rfl, rfl, rfl, rfl⟩ hrec
    · simp only [Option.some.injEq] at h
      subst h
      exact Untouched.refl w

theorem successLoop_returns (env : Env) (txnHash : Option String) (fuel : Nat) :
    ∀ (count : Nat) (response : TxnRecord) (w : World), 1 ≤ fuel → 51 ≤ fuel + count →
      ∃ o, successLoop env txnHash fuel count response w = some o := by
  induction fuel with
  | zero => intro count response w h; omega
  | succ fuel ih =>
    intro count response w _ hf
    rw [successLoop]
    split
    · split
      · exact ⟨_, rfl⟩
      · generalize getTransactionByHash env w = r
        rcases r with ⟨_ | response1, w1⟩
        · exact ⟨_, rfl⟩
        · exact ih _ _ _ (by omega) (by omega)
    · exact ⟨_, rfl⟩

/-- While every poll answers "pending", the first loop ends in the timed-out
error after polling at every `count` from the current one to 50. -/
theorem pendingLoop_all_pending (env : Env) (txnHash : Option String)
    (hp : ∀ w, (transactionPendingProxy env w).1 = .ok true) (fuel : Nat) :
    ∀ (count : Nat) (w : World), count ≤ 50 → 51 ≤ fuel + count →
      ∃ w', pendingLoop env txnHash fuel count w = some (.error (.timedOut txnHash), w') ∧
        w'.polls = w.polls + (51 - count) ∧ w'.gets = w.gets + (51 - count) ∧
        w'.slept = w.slept + 1000 * (50 - count) := by
  induction fuel with
  | zero => intro count w h1 h2; omega
  | succ fuel ih =>
    intro count w hc hf
    rw [pendingLoop]
    have hw := transactionPendingProxy_world env w
    have hb := hp w
    generalize transactionPendingProxy env w = r at hw hb
    rcases r with ⟨b, w1⟩
    simp only at hw hb
    subst hw hb
    simp only
    by_cases h50 : count ≥ 50
    · have : count = 50 := by omega
      subst this
      simp only [ge_iff_le, le_refl, if_true]
      exact ⟨_, rfl, rfl, rfl, rfl⟩
    · simp only [h50, if_false]
      obtain ⟨w', h1, h2, h3, h4⟩ := ih (count + 1)
        { w with polls := w.polls + 1, gets := w.gets + 1, slept := w.slept + 1000 }
        (by omega) (by omega)
      refine ⟨w', h1, ?_, ?_, ?_⟩
      · rw [h2]; simp only; omega
      · rw [h3]; simp only; omega
      · rw [h4]; simp only; omega

theorem waitForTransactionProxy_returns (env : Env) (txnHash : Option String) (w : World) :
    ∃ o, waitForTransactionProxy env txnHash w = some o := by
  unfold waitForTransactionProxy
  obtain ⟨o, ho⟩ := pendingLoop_returns env txnHash 51 0 w (by decide) (by decide)
  rw [ho]
  rcases o with ⟨_ | _, w1⟩
  · exact ⟨_, rfl⟩
  · simp only
    generalize getTransactionByHash env w1 = r
    rcases r with ⟨_ | response, w2⟩
    · exact ⟨_, rfl⟩
    · simp only
      obtain ⟨o2, ho2⟩ := successLoop_returns env txnHash 51 0 response w2 (by decide) (by decide)
      rw [ho2]
      rcases o2 with ⟨_ | response1, w3⟩
      · exact ⟨_, rfl⟩
      · simp only
        split <;> exact ⟨_, rfl⟩

theorem waitForTransactionProxy_untouched (env : Env) (txnHash : Option String) (w : World)
    (o : Outcome TxnRecord) (h : waitForTransactionProxy env txnHash w = some o) :
    Untouched w o.2 := by
  unfold waitForTransactionProxy at h
  cases h1 : pendingLoop env txnHash 51 0 w with
  | none => simp [h1] at h
  | some o1 =>
    have hu1 := pendingLoop_untouched env txnHash 51 0 w o1 h1
    rw [h1] at h
    rcases o1 with ⟨_ | _, w1⟩
    · simp only [Option.some.injEq] at h
      subst h
      exact hu1
    · simp only at h
      have hw := getTransactionByHash_world env w1
      generalize getTransactionByHash env w1 = r at h hw
      rcases r with ⟨_ | response, w2⟩
      · simp only [Option.some.injEq] at h
        subst h
        simp only at hw
        subst hw
        exact hu1.trans ⟨rfl, rfl, rfl, rfl, rfl, rfl⟩
      · simp only at hw h
        have hu2 : Untouched w w2 := by
          subst hw
          exact hu1.trans ⟨rfl, rfl, rfl, rfl, rfl, rfl⟩
        cases h3 : successLoop env txnHash 51 0 response w2 with
        | none => simp [h3] at h
        | some o3 =>
          have hu3 := successLoop_untouched env txnHash 51 0 response w2 o3 h3
          rw [h3] at h
          rcases o3 with ⟨_ | response1, w3⟩
          · simp only [Option.some.injEq] at h
            subst h
            exact hu2.trans hu3
          · simp only at h
            split at h <;>
            · simp only [Option.some.injEq] at h
              subst h
              exact hu2.trans hu3

/-! ## Lemmas on sendTransaction -/

theorem submitTransactionProxy_world (env : Env) (proxy : Option String) (w : World) :
    (submitTransactionProxy env proxy w).2 = { w with submits := w.submits ++ [proxy] } := by
  unfold submitTransactionProxy
  cases env.post w.submits.length proxy with
  | error e => rfl
  | ok response =>
    simp only
    split
    · cases response.text <;> rfl
    · rfl

theorem trySend_returns (env : Env) (proxy : Option String) (w : World) :
    ∃ o, trySend env proxy w = some o := by
  unfold trySend
  simp only [Rng.next]
  cases env.generateTransaction w.builds with
  | error e => exact ⟨_, rfl⟩
  | ok _ =>
    simp only
    cases env.signTransaction w.signs with
    | error e => exact ⟨_, rfl⟩
    | ok _ =>
      simp only
      generalize submitTransactionProxy env proxy _ = r
      rcases r with ⟨_ | txnHash, w3⟩
      · exact ⟨_, rfl⟩
      · exact waitForTransactionProxy_returns env txnHash w3

/-- The `try` block leaves `retriesMap` and the record of invocations as they were. -/
theorem trySend_frame (env : Env) (proxy : Option String) (w : World) (o : Outcome TxnRecord)
    (h : trySend env proxy w = some o) :
    o.2.retriesMap = w.retriesMap ∧ o.2.sends = w.sends := by
  unfold trySend at h
  simp only [Rng.next] at h
  cases hg : env.generateTransaction w.builds with
  | error e =>
    simp only [hg, Option.some.injEq] at h
    subst h
    exact ⟨rfl, rfl⟩
  | ok _ =>
    simp only [hg] at h
    cases hs : env.signTransaction w.signs with
    | error e =>
      simp only [hs, Option.some.injEq] at h
      subst h
      exact ⟨rfl, rfl⟩
    | ok _ =>
      simp only [hs] at h
      have hw := submitTransactionProxy_world env proxy
        { w with rng := fun n => w.rng (n + 1), builds := w.builds + 1, signs := w.signs + 1 }
      generalize submitTransactionProxy env proxy
        { w with rng := fun n => w.rng (n + 1), builds := w.builds + 1, signs := w.signs + 1 } = r
        at h hw
      rcases r with ⟨_ | txnHash, w3⟩
      · simp only [Option.some.injEq] at h
        subst h
        simp only at hw
        subst hw
        exact ⟨rfl, rfl⟩
      · simp only at h hw
        have hu := waitForTransactionProxy_untouched env txnHash w3 o h
        subst hw
        exact ⟨hu.1, hu.2.1⟩

/-- One invocation of `sendTransaction` with enough fuel returns normally;
when the count after a failure is not below `config.retries`, it is the only
invocation. -/
theorem sendTransaction_returns (env : Env) (sender : Account) (payload : Payload)
    (fuel : Nat) :
    ∀ (proxy : Option String) (w : World), 1 ≤ fuel →
      env.retries ≤ fuel + w.retriesMap.count sender.address →
      ∃ w', sendTransaction env fuel sender payload proxy w = some (.ok (), w') ∧
        (env.retries ≤ w.retriesMap.count sender.address + 1 →
          w'.sends = w.sends ++ [(sender, payload, proxy)]) := by
  induction fuel with
  | zero => intro proxy w h; omega
  | succ fuel ih =>
    intro proxy w _ hf
    rw [sendTransaction]
    obtain ⟨o, ho⟩ := trySend_returns env proxy
      { w with sends := w.sends ++ [(sender, payload, proxy)] }
    have hfr := trySend_frame env proxy _ o ho
    rw [ho]
    rcases o with ⟨e | r, w1⟩
    · simp only at hfr ⊢
      have hfst := handleRetries_fst env.retries w1.retriesMap sender.address
      have hcnt := handleRetries_count env.retries w1.retriesMap sender.address
      generalize handleRetries env.retries w1.retriesMap sender.address = hr at hfst hcnt
      rcases hr with ⟨retry, m⟩
      simp only at hfst hcnt ⊢
      rw [hfr.1] at hfst hcnt
      by_cases hlt : w.retriesMap.count sender.address + 1 < env.retries
      · have hretry : retry = true := by simp [hfst, hlt]
        subst hretry
        simp only [if_true]
        obtain ⟨w', h1, _⟩ := ih none
          { w1 with retriesMap := m, slept := w1.slept + 10000 } (by omega)
          (by simp only; omega)
        exact ⟨w', h1, fun hge => by omega⟩
      · have hretry : retry = false := by simp [hfst, hlt]
        subst hretry
        simp only [Bool.false_eq_true, if_false]
        exact ⟨_, rfl, fun _ => hfr.2⟩
    · exact ⟨w1, rfl, fun _ => hfr.2⟩

/-! ## The claims on the transaction lifecycle -/

/-- C5 as stated fails: against collaborators that always report "pending",
`waitForTransactionProxy` ends in the timed-out error after 51 calls of
`transactionPendingProxy`, not 50. -/
theorem waitForTransactionProxy_polls_51 :
    thrownBy (waitForTransactionProxy alwaysPending (some "0xabc") (World.init alwaysZero)) =
      some (.timedOut (some "0xabc")) ∧
    (worldAfter (waitForTransactionProxy alwaysPending (some "0xabc")
      (World.init alwaysZero))).map (fun w => w.polls) = some 51 ∧
    (worldAfter (waitForTransactionProxy alwaysPending (some "0xabc")
      (World.init alwaysZero))).map (fun w => w.polls) ≠ some 50 := by
  decide

/-- C5, amended: when every poll reports the transaction as pending,
`waitForTransactionProxy` fails with the timed-out error after exactly 51
calls of `transactionPendingProxy` (one at each `count` from 0 to 50) and
exactly 50 waits of 1000 ms. -/
theorem waitForTransactionProxy_times_out (env : Env) (txnHash : Option String) (w : World)
    (hp : ∀ w, (transactionPendingProxy env w).1 = .ok true) :
    ∃ w', waitForTransactionProxy env txnHash w = some (.error (.timedOut txnHash), w') ∧
      w'.polls = w.polls + 51 ∧ w'.gets = w.gets + 51 ∧ w'.slept = w.slept + 50 * 1000 := by
  obtain ⟨w', h1, h2, h3, h4⟩ :=
    pendingLoop_all_pending env txnHash hp 51 0 w (by decide) (by decide)
  refine ⟨w', ?_, h2, h3, h4⟩
  unfold waitForTransactionProxy
  rw [h1]

/-- Witness for `waitForTransactionProxy_times_out`: the collaborators `alwaysPending`. -/
theorem waitForTransactionProxy_times_out_witness :
    (∀ w, (transactionPendingProxy alwaysPending w).1 = .ok true) ∧
    ∃ w', waitForTransactionProxy alwaysPending (some "0xabc") (World.init alwaysZero) =
        some (.error (.timedOut (some "0xabc")), w') ∧
      w'.polls = (World.init alwaysZero).polls + 51 ∧
      w'.gets = (World.init alwaysZero).gets + 51 ∧
      w'.slept = (World.init alwaysZero).slept + 50 * 1000 :=
  ⟨fun _ => rfl,
    waitForTransactionProxy_times_out alwaysPending (some "0xabc") (World.init alwaysZero)
      (fun _ => rfl)⟩

/-- C6 (no error escapes the submission boundary): whatever the builder,
the signer and the remote endpoint do, `sendTransaction` returns normally
(given fuel above `config.retries` for its recursion); and when the failure
count recorded for the address, once increased, is not below `config.retries`,
it returns after the single invocation, without retrying. -/
theorem sendTransaction_never_raises (env : Env) (fuel : Nat) (sender : Account)
    (payload : Payload) (proxy : Option String) (w : World) (hfuel : env.retries < fuel) :
    ∃ w', sendTransaction env fuel sender payload proxy w = some (.ok (), w') ∧
      (env.retries ≤ w.retriesMap.count sender.address + 1 →
        w'.sends = w.sends ++ [(sender, payload, proxy)]) :=
  sendTransaction_returns env sender payload fuel proxy w (by omega) (by omega)

/-- Witness for `sendTransaction_never_raises`: every remote call fails,
`config.retries = 3`, fuel 4. -/
theorem sendTransaction_never_raises_witness :
    alwaysFailing.retries < 4 ∧
    ∃ w', sendTransaction alwaysFailing 4 alice onePixel (some "http://10.0.0.1:8080")
        (World.init alwaysZero) = some (.ok (), w') ∧
      (alwaysFailing.retries ≤ (World.init alwaysZero).retriesMap.count alice.address + 1 →
        w'.sends = (World.init alwaysZero).sends ++
          [(alice, onePixel, some "http://10.0.0.1:8080")]) :=
  ⟨by decide,
    sendTransaction_never_raises alwaysFailing 4 alice onePixel (some "http://10.0.0.1:8080")
      (World.init alwaysZero) (by decide)⟩

/-- C7, evaluated where it fails: when `coinClient.checkBalance` fails with an
error other than "Resource not found", `checkBalance` ends with
`ReferenceError: sender is not defined`, raised by `sender.address()` in its
`catch` block before `handleRetries` is reached: the retry counter stays
untouched and there is one call of the oracle only. -/
theorem checkBalance_reference_error :
    thrownBy (checkBalance alwaysFailing 4 alice (World.init alwaysZero)) =
      some (.referenceError "sender") ∧
    (worldAfter (checkBalance alwaysFailing 4 alice (World.init alwaysZero))).map
      (fun w => (w.retriesMap alice.address, w.balanceChecks, w.slept)) = some (none, 1, 0) := by
  decide

/-! ## Lemmas on the payload and on the walk length -/

theorem generateRandomNumber_bounds (min max : Int) (r : Draw) (h : min ≤ max) :
    min ≤ generateRandomNumber min max r ∧ generateRandomNumber min max r ≤ max := by
  have hlt : (r.num : Int) < (r.den : Int) := by exact_mod_cast r.lt
  have hnum : (0 : Int) ≤ (r.num : Int) := Int.ofNat_nonneg _
  have hden : (0 : Int) < 2 * (r.den : Int) := by omega
  have hd : (0 : Int) ≤ max - min := by omega
  have hmul : (r.num : Int) * (max - min) ≤ (r.den : Int) * (max - min) :=
    Int.mul_le_mul_of_nonneg_right (by omega) hd
  have hmul0 : (0 : Int) ≤ (r.num : Int) * (max - min) := Int.mul_nonneg hnum hd
  unfold generateRandomNumber
  constructor
  · apply Int.le_ediv_of_mul_le hden
    nlinarith
  · have : (2 * ((r.num : Int) * (max - min) + min * (r.den : Int)) + (r.den : Int)) /
        (2 * (r.den : Int)) < max + 1 := by
      apply Int.ediv_lt_of_lt_mul hden
      nlinarith
    omega

theorem generatePayloadLoop_spec :
    ∀ (ps : List Point) (axisX axisY colors : List Int) (rng : Rng),
      (generatePayloadLoop ps axisX axisY colors rng).1.1 = axisX ++ ps.map (fun p => p.x) ∧
      (generatePayloadLoop ps axisX axisY colors rng).1.2.1 = axisY ++ ps.map (fun p => p.y) ∧
      ∃ extra, (generatePayloadLoop ps axisX axisY colors rng).1.2.2 = colors ++ extra ∧
        extra.length = ps.length ∧ ∀ c ∈ extra, 0 ≤ c ∧ c ≤ 7
  | [], axisX, axisY, colors, rng => by
    simp [generatePayloadLoop]
  | point :: rest, axisX, axisY, colors, rng => by
    obtain ⟨h1, h2, extra, h3, h4, h5⟩ := generatePayloadLoop_spec rest (axisX ++ [point.x])
      (axisY ++ [point.y]) (colors ++ [generateRandomNumber 0 7 (rng 0)]) (fun n => rng (n + 1))
    simp only [generatePayloadLoop, Rng.next]
    refine ⟨by simp [h1], by simp [h2], generateRandomNumber 0 7 (rng 0) :: extra, by simp [h3],
      by simp [h4], ?_⟩
    intro c hc
    rcases List.mem_cons.1 hc with hc | hc
    · subst hc
      exact generateRandomNumber_bounds 0 7 (rng 0) (by decide)
    · exact h5 c hc

theorem createLineLoop_length_le (lineLength : Int) (fuel : Nat) :
    ∀ (pts : List Point) (h : pts ≠ []) (rng : Rng), (pts.length : Int) ≤ lineLength →
      ((createLineLoop lineLength fuel pts h rng).1.length : Int) ≤ lineLength := by
  induction fuel with
  | zero => intro pts h rng hl; rw [createLineLoop]; exact hl
  | succ fuel ih =>
    intro pts h rng hl
    rw [createLineLoop]
    split
    · generalize getPossibleDirections pts h rng = r
      rcases r with ⟨_ | p, rng1⟩
      · exact hl
      · simp only
        apply ih
        simp only [List.length_append, List.length_singleton]
        push_cast
        omega
    · exact hl

theorem pointsAround_nodup (c : Point) : (pointsAround c).Nodup := by
  simp only [pointsAround, List.nodup_cons, List.mem_cons, List.mem_singleton, Point.mk.injEq,
    List.not_mem_nil, List.nodup_nil, or_false, and_true, true_and, not_false_eq_true]
  omega

/-! ## The claims on the payload, the walk length and the shuffle -/

/-- C11 (encoding parity and order): `generatePayload(ps)` returns the fixed
resource identifier with three arrays of the length of `ps`; the x array and
the y array hold the coordinates of the points in their original order. -/
theorem generatePayload_parity (ps : List Point) (rng : Rng) :
    (generatePayload ps rng).1.resourceId =
      "0x5d45bb2a6f391440ba10444c7734559bd5ef9053930e3ef53d05be332518522b" ∧
    (generatePayload ps rng).1.axisX.length = ps.length ∧
    (generatePayload ps rng).1.axisY.length = ps.length ∧
    (generatePayload ps rng).1.colors.length = ps.length ∧
    (∀ i : Nat, (generatePayload ps rng).1.axisX[i]? = ps[i]?.map (fun p => p.x)) ∧
    (∀ i : Nat, (generatePayload ps rng).1.axisY[i]? = ps[i]?.map (fun p => p.y)) := by
  obtain ⟨h1, h2, extra, h3, h4, _⟩ := generatePayloadLoop_spec ps [] [] [] rng
  simp only [List.nil_append] at h1 h2 h3
  simp only [generatePayload]
  refine ⟨trivial, ?_, ?_, ?_, ?_, ?_⟩
  · rw [h1]; simp
  · rw [h2]; simp
  · rw [h3]; exact h4
  · intro i; rw [h1]; simp
  · intro i; rw [h2]; simp

/-- C14 (attribute range): every element of the colour array produced by
`generatePayload` is an integer between 0 and 7, and for integers `min ≤ max`
`generateRandomNumber(min, max)` is an integer between `min` and `max`. -/
theorem generatePayload_colors_range (ps : List Point) (rng : Rng) (min max : Int) (r : Draw)
    (h : min ≤ max) :
    (∀ c ∈ (generatePayload ps rng).1.colors, 0 ≤ c ∧ c ≤ 7) ∧
    min ≤ generateRandomNumber min max r ∧ generateRandomNumber min max r ≤ max := by
  refine ⟨?_, generateRandomNumber_bounds min max r h⟩
  obtain ⟨_, _, extra, h3, _, h5⟩ := generatePayloadLoop_spec ps [] [] [] rng
  simp only [List.nil_append] at h3
  simp only [generatePayload]
  rw [h3]
  exact h5

/-- Witness for `generatePayload_colors_range`: two points, the gas range 700 to 2000. -/
theorem generatePayload_colors_range_witness :
    (700 : Int) ≤ 2000 ∧
    (∀ c ∈ (generatePayload [⟨1, 2⟩, ⟨3, 4⟩] halfThenZero).1.colors, 0 ≤ c ∧ c ≤ 7) ∧
    700 ≤ generateRandomNumber 700 2000 (halfThenZero 0) ∧
    generateRandomNumber 700 2000 (halfThenZero 0) ≤ 2000 :=
  ⟨by decide,
    generatePayload_colors_range [⟨1, 2⟩, ⟨3, 4⟩] halfThenZero 700 2000 (halfThenZero 0)
      (by decide)⟩

/-- C15 (walk length limits): for `maxLineLength ≥ 1` the walk returned by
`createLine` has at least 1 and at most `maxLineLength` points, and
`createLine(1)` returns a single point. -/
theorem createLine_length_limits (maxLineLength : Int) (rng : Rng) (hmax : 1 ≤ maxLineLength) :
    1 ≤ (createLine maxLineLength rng).1.length ∧
    ((createLine maxLineLength rng).1.length : Int) ≤ maxLineLength ∧
    (createLine 1 rng).1.length = 1 := by
  have hub : ∀ m : Int, 1 ≤ m → ((createLine m rng).1.length : Int) ≤ m := by
    intro m hm
    have h1 : 1 ≤ lineLengthOf m (rng 0) := by
      have := floorRandomTimes_nonneg (rng 0) (n := m) (by omega)
      simp only [lineLengthOf]
      omega
    have h2 : lineLengthOf m (rng 0) ≤ m := by
      have := floorRandomTimes_lt (rng 0) (n := m) (by omega)
      simp only [lineLengthOf]
      omega
    have h3 := createLineLoop_length_le (lineLengthOf m (rng 0)) (lineLengthOf m (rng 0)).toNat
      [⟨floorRandomTimes (rng (0 + 1)) (lengthStop - lengthStart + 1) + lengthStart,
        floorRandomTimes (rng (0 + 1 + 1)) (weightStop - weightStart + 1) + weightStart⟩]
      (by simp) (fun n => rng (n + 1 + 1 + 1))
      (by simp only [List.length_singleton]; push_cast; omega)
    simp only [createLine, Rng.next]
    omega
  refine ⟨createLine_length_pos maxLineLength rng, hub maxLineLength hmax, ?_⟩
  have h1 := createLine_length_pos 1 rng
  have h2 := hub 1 (le_refl 1)
  omega

/-- Witness for `createLine_length_limits`: `createLine(5)` with the draws `1/2, 0, 0, ...`. -/
theorem createLine_length_limits_witness :
    (1 : Int) ≤ 5 ∧
    1 ≤ (createLine 5 halfThenZero).1.length ∧
    ((createLine 5 halfThenZero).1.length : Int) ≤ 5 ∧
    (createLine 1 halfThenZero).1.length = 1 :=
  ⟨by decide, createLine_length_limits 5 halfThenZero (by decide)⟩

/-- C19 (the shuffle is a permutation): `shuffleArray` leaves the array with
the same length and the same elements with the same multiplicities; so the
array that the `for` loop of `getPossibleDirections` runs over holds each of
the 8 distinct neighbours of the tail exactly once. -/
theorem shuffleArray_permutation {α : Type} (array : List α) (rng : Rng)
    (usedPoints : List Point) (h : usedPoints ≠ []) :
    (shuffleArray array rng).1.length = array.length ∧
    (shuffleArray array rng).1.Perm array ∧
    (getPossibleDirections usedPoints h rng).1 =
      (shuffleArray (pointsAround (usedPoints.getLast h)) rng).1.find?
        (fun point => acceptable usedPoints point) ∧
    (shuffleArray (pointsAround (usedPoints.getLast h)) rng).1.Perm
      (pointsAround (usedPoints.getLast h)) ∧
    (shuffleArray (pointsAround (usedPoints.getLast h)) rng).1.Nodup ∧
    (shuffleArray (pointsAround (usedPoints.getLast h)) rng).1.length = 8 := by
  have hp := shuffleArray_perm (pointsAround (usedPoints.getLast h)) rng
  refine ⟨(shuffleArray_perm array rng).length_eq, shuffleArray_perm array rng, ?_, hp,
    hp.nodup_iff.2 (pointsAround_nodup _), ?_⟩
  · simp only [getPossibleDirections]
  · rw [hp.length_eq]
    rfl

/-- Witness for `shuffleArray_permutation`: a three-element array, a walk of one point. -/
theorem shuffleArray_permutation_witness :
    ([⟨0, 0⟩] : List Point) ≠ [] ∧
    (shuffleArray [1, 2, 3] halfThenZero).1.length = [1, 2, 3].length ∧
    (shuffleArray [1, 2, 3] halfThenZero).1.Perm [1, 2, 3] :=
  ⟨by decide,
    (shuffleArray_permutation [1, 2, 3] halfThenZero [⟨0, 0⟩] (by decide)).1,
    (shuffleArray_permutation [1, 2, 3] halfThenZero [⟨0, 0⟩] (by decide)).2.1⟩

/-! ## Lemmas on fetches that answer "not found" first -/

theorem getTransactionByHash_of_reply (env : Env) (w : World) (resp : HttpResponse TxnRecord)
    (b : TxnRecord) (h1 : env.get w.gets = .ok resp)
    (h2 : resp.status = 404 ∨ resp.status < 400) (h3 : resp.json = .ok b) :
    getTransactionByHash env w = (.ok b, { w with gets := w.gets + 1 }) := by
  unfold getTransactionByHash
  rw [h1]
  simp only
  have hn : ¬ (resp.status ≠ 404 ∧ resp.status ≥ 400) := by omega
  rw [if_neg hn, h3]

theorem transactionPendingProxy_not_found (env : Env) (w w1 : World) (b : TxnRecord)
    (h : getTransactionByHash env { w with polls := w.polls + 1 } = (.ok b, w1))
    (hs : b.status = some 404) :
    transactionPendingProxy env w = (.ok true, w1) := by
  unfold transactionPendingProxy
  rw [h]
  simp [hs]

theorem transactionPendingProxy_settled (env : Env) (w w1 : World) (b : TxnRecord)
    (h : getTransactionByHash env { w with polls := w.polls + 1 } = (.ok b, w1))
    (hs : b.status = none) (ht : b.type ≠ some "pending_transaction") :
    transactionPendingProxy env w = (.ok false, w1) := by
  unfold transactionPendingProxy
  rw [h]
  simp [hs, ht]

/-- The first loop, when the fetches from number `g0` on return the records
`body 0, body 1, ...`, none of type pending, of which only the first `k` may
carry a `status` of 404: the loop ends normally. -/
theorem pendingLoop_not_found_first (env : Env) (txnHash : Option String) (g0 k : Nat)
    (body : Nat → TxnRecord)
    (hget : ∀ w' : World, g0 ≤ w'.gets →
      getTransactionByHash env w' = (.ok (body (w'.gets - g0)), { w' with gets := w'.gets + 1 }))
    (hbody : ∀ n, (body n).type ≠ some "pending_transaction" ∧
      ((body n).status = none ∨ (n < k ∧ (body n).status = some 404)))
    (fuel : Nat) :
    ∀ (count : Nat) (w1 : World), g0 ≤ w1.gets → 1 ≤ fuel → k < fuel + (w1.gets - g0) →
      count + k ≤ 50 + (w1.gets - g0) →
      ∃ w2, pendingLoop env txnHash fuel count w1 = some (.ok (), w2) ∧ g0 ≤ w2.gets := by
  induction fuel with
  | zero => intro count w1 _ h; omega
  | succ fuel ih =>
    intro count w1 hg _ hk hc
    have hfetch := hget { w1 with polls := w1.polls + 1 } hg
    rw [pendingLoop]
    rcases (hbody (w1.gets - g0)).2 with hnone | ⟨hlt, h404⟩
    · rw [transactionPendingProxy_settled env w1 _ _ hfetch hnone (hbody (w1.gets - g0)).1]
      exact ⟨_, rfl, by simp only; omega⟩
    · rw [transactionPendingProxy_not_found env w1 _ _ hfetch h404]
      have h50 : ¬ count ≥ 50 := by omega
      simp only [h50, if_false]
      refine ih (count + 1) _ (by simp only; omega) (by omega) ?_ ?_
      · simp only; omega
      · simp only; omega

/-- The second loop, under the same reading of the fetches, when the first `k`
records are unsuccessful and every later one is the successful record `r`. -/
theorem successLoop_not_found_first (env : Env) (txnHash : Option String) (g0 k : Nat)
    (body : Nat → TxnRecord) (r : TxnRecord)
    (hget : ∀ w' : World, g0 ≤ w'.gets →
      getTransactionByHash env w' = (.ok (body (w'.gets - g0)), { w' with gets := w'.gets + 1 }))
    (hfail : ∀ n, n < k → (body n).success = false)
    (hlate : ∀ n, k ≤ n → body n = r) (hr : r.success = true) (fuel : Nat) :
    ∀ (count m : Nat) (w2 : World), w2.gets = g0 + m + 1 → 1 ≤ fuel → k < fuel + m →
      count + k ≤ 50 + m →
      ∃ w3, successLoop env txnHash fuel count (body m) w2 = some (.ok r, w3) := by
  induction fuel with
  | zero => intro count m w2 _ h; omega
  | succ fuel ih =>
    intro count m w2 hg _ hk hc
    rw [successLoop]
    by_cases hm : m < k
    · have hf := hfail m hm
      have h50 : ¬ count ≥ 50 := by omega
      simp only [hf, Bool.not_false, if_true, h50, if_false]
      rw [hget w2 (by omega)]
      simp only
      have hidx : w2.gets - g0 = m + 1 := by omega
      rw [hidx]
      exact ih (count + 1) (m + 1) _ (by simp only; omega) (by omega) (by omega) (by omega)
    · have hb : body m = r := hlate m (by omega)
      rw [hb]
      simp only [hr, Bool.not_true, Bool.false_eq_true, if_false]
      exact ⟨_, rfl⟩

theorem waitForTransactionProxy_not_found_first (env : Env) (txnHash : Option String)
    (w : World) (k : Nat) (body : Nat → TxnRecord) (r : TxnRecord) (hk : k ≤ 50)
    (hget : ∀ w' : World, w.gets ≤ w'.gets →
      getTransactionByHash env w' =
        (.ok (body (w'.gets - w.gets)), { w' with gets := w'.gets + 1 }))
    (hbody : ∀ n, (body n).type ≠ some "pending_transaction" ∧
      ((body n).status = none ∨ (n < k ∧ (body n).status = some 404)))
    (hfail : ∀ n, n < k → (body n).success = false)
    (hlate : ∀ n, k ≤ n → body n = r) (hr : r.success = true) :
    ∃ w', waitForTransactionProxy env txnHash w = some (.ok r, w') := by
  obtain ⟨w2, h2, hg2⟩ := pendingLoop_not_found_first env txnHash w.gets k body hget hbody 51 0 w
    (le_refl _) (by decide) (by omega) (by omega)
  unfold waitForTransactionProxy
  rw [h2]
  simp only
  rw [hget w2 hg2]
  simp only
  obtain ⟨w3, h3⟩ := successLoop_not_found_first env txnHash w.gets k body r hget hfail hlate hr
    51 0 (w2.gets - w.gets) { w2 with gets := w2.gets + 1 } (by simp only; omega) (by decide)
    (by omega) (by omega)
  rw [h3]
  simp only [hr, Bool.not_true, Bool.false_eq_true, if_false]
  exact ⟨_, rfl⟩

/-! ## Lemmas on the record returned and on the retries -/

theorem getTransactionByHash_ok (env : Env) (w w1 : World) (r : TxnRecord)
    (h : getTransactionByHash env w = (.ok r, w1)) :
    w1.gets = w.gets + 1 ∧ ∃ resp, env.get w.gets = .ok resp ∧ resp.json = .ok r := by
  have hw := getTransactionByHash_world env w
  rw [h] at hw
  simp only at hw
  subst hw
  refine ⟨rfl, ?_⟩
  unfold getTransactionByHash at h
  cases hg : env.get w.gets with
  | error e => simp [hg] at h
  | ok resp =>
    simp only [hg] at h
    split at h
    · simp at h
    · simp only [Prod.mk.injEq] at h
      exact ⟨resp, rfl, h.1⟩

theorem pendingLoop_gets_le (env : Env) (txnHash : Option String) (fuel : Nat) :
    ∀ (count : Nat) (w : World) (o : Outcome Unit),
      pendingLoop env txnHash fuel count w = some o → w.gets ≤ o.2.gets := by
  induction fuel with
  | zero => intro count w o h; simp [pendingLoop] at h
  | succ fuel ih =>
    intro count w o h
    rw [pendingLoop] at h
    have hw := transactionPendingProxy_world env w
    generalize transactionPendingProxy env w = r at h hw
    rcases r with ⟨_ | b, w1⟩
    · simp only [Option.some.injEq] at h
      subst h
      simp only at hw ⊢
      subst hw
      simp
    · simp only at hw
      subst hw
      cases b with
      | false =>
        simp only [Option.some.injEq] at h
        subst h
        simp
      | true =>
        simp only at h
        split at h
        · simp only [Option.some.injEq] at h
          subst h
          simp
        · have hrec := ih _ _ _ h
          simp only at hrec
          omega

/-- The second loop returns normally only with a successful record, and that
record is the one given by the last fetch made. -/
theorem successLoop_ok (env : Env) (txnHash : Option String) (fuel : Nat) :
    ∀ (count : Nat) (response : TxnRecord) (w : World) (r : TxnRecord) (w' : World),
      (0 < w.gets ∧ ∃ resp, env.get (w.gets - 1) = .ok resp ∧ resp.json = .ok response) →
      successLoop env txnHash fuel count response w = some (.ok r, w') →
      r.success = true ∧ w.gets ≤ w'.gets ∧
        ∃ resp, env.get (w'.gets - 1) = .ok resp ∧ resp.json = .ok r := by
  induction fuel with
  | zero => intro count response w r w' _ h; simp [successLoop] at h
  | succ fuel ih =>
    intro count response w r w' hlast h
    rw [successLoop] at h
    split at h
    · split at h
      · simp at h
      · cases hg : getTransactionByHash env w with
        | mk res w1 =>
          rw [hg] at h
          cases res with
          | error e => simp at h
          | ok response1 =>
            simp only at h
            obtain ⟨hw1, resp, hresp, hjson⟩ := getTransactionByHash_ok env w w1 response1 hg
            have hrec := ih (count + 1) response1 { w1 with slept := w1.slept + 1000 } r w'
              ⟨by simp only; omega, resp, by simp only [hw1, Nat.add_sub_cancel]; exact hresp,
                hjson⟩ h
            simp only at hrec
            exact ⟨hrec.1, by omega, hrec.2.2⟩
    · simp only [Option.some.injEq, Prod.mk.injEq, Except.ok.injEq] at h
      obtain ⟨h1, h2⟩ := h
      subst h1 h2
      rename_i hs
      simp only [Bool.not_eq_true', Bool.not_eq_false] at hs
      exact ⟨by simpa using hs, le_refl _, hlast.2⟩

/-- The `try` block calls `client.generateTransaction` exactly once. -/
theorem trySend_builds (env : Env) (proxy : Option String) (w : World) (o : Outcome TxnRecord)
    (h : trySend env proxy w = some o) : o.2.builds = w.builds + 1 := by
  unfold trySend at h
  simp only [Rng.next] at h
  cases hg : env.generateTransaction w.builds with
  | error e =>
    simp only [hg, Option.some.injEq] at h
    subst h
    rfl
  | ok _ =>
    simp only [hg] at h
    cases hs : env.signTransaction w.signs with
    | error e =>
      simp only [hs, Option.some.injEq] at h
      subst h
      rfl
    | ok _ =>
      simp only [hs] at h
      have hw := submitTransactionProxy_world env proxy
        { w with rng := fun n => w.rng (n + 1), builds := w.builds + 1, signs := w.signs + 1 }
      generalize submitTransactionProxy env proxy
        { w with rng := fun n => w.rng (n + 1), builds := w.builds + 1, signs := w.signs + 1 } = r
        at h hw
      rcases r with ⟨_ | txnHash, w3⟩
      · simp only [Option.some.injEq] at h
        subst h
        simp only at hw
        subst hw
        rfl
      · simp only at h hw
        have hu := waitForTransactionProxy_untouched env txnHash w3 o h
        subst hw
        exact hu.2.2.2.1

/-- The invocations of `sendTransaction` made by one call: the call itself,
then retries with the same sender and payload and no route. -/
theorem sendTransaction_sends (env : Env) (sender : Account) (payload : Payload) (fuel : Nat) :
    ∀ (proxy : Option String) (w : World) (o : Outcome Unit),
      sendTransaction env fuel sender payload proxy w = some o →
      ∃ k, o.2.sends =
        w.sends ++ (sender, payload, proxy) :: List.replicate k (sender, payload, none) := by
  induction fuel with
  | zero => intro proxy w o h; simp [sendTransaction] at h
  | succ fuel ih =>
    intro proxy w o h
    rw [sendTransaction] at h
    cases ht : trySend env proxy { w with sends := w.sends ++ [(sender, payload, proxy)] } with
    | none => simp [ht] at h
    | some o1 =>
      have hfr := trySend_frame env proxy _ o1 ht
      rw [ht] at h
      rcases o1 with ⟨e | r, w1⟩
      · simp only at hfr h
        generalize handleRetries env.retries w1.retriesMap sender.address = hr at h
        rcases hr with ⟨retry, m⟩
        simp only at h
        cases retry with
        | true =>
          simp only [if_true] at h
          obtain ⟨k, hk⟩ := ih none _ o h
          refine ⟨k + 1, ?_⟩
          rw [hk]
          simp only [hfr.2, List.replicate_succ, List.append_assoc, List.singleton_append]
        | false =>
          simp only [Bool.false_eq_true, if_false, Option.some.injEq] at h
          subst h
          exact ⟨0, by simp [hfr.2]⟩
      · simp only [Option.some.injEq] at h
        subst h
        exact ⟨0, by simpa using hfr.2⟩

/-- When every attempt fails, one call makes `max 1 (retries - count)` attempts
and leaves the count increased by as many. -/
theorem sendTransaction_all_fail (env : Env) (sender : Account) (payload : Payload)
    (hfail : ∀ (proxy : Option String) (w : World),
      ∃ e w1, trySend env proxy w = some (.error e, w1)) (fuel : Nat) :
    ∀ (proxy : Option String) (w : World),
      max 1 (env.retries - w.retriesMap.count sender.address) ≤ fuel →
      ∃ w', sendTransaction env fuel sender payload proxy w = some (.ok (), w') ∧
        w'.sends.length =
          w.sends.length + max 1 (env.retries - w.retriesMap.count sender.address) ∧
        w'.builds = w.builds + max 1 (env.retries - w.retriesMap.count sender.address) ∧
        w'.retriesMap.count sender.address = w.retriesMap.count sender.address +
          max 1 (env.retries - w.retriesMap.count sender.address) := by
  induction fuel with
  | zero => intro proxy w h; omega
  | succ fuel ih =>
    intro proxy w hf
    rw [sendTransaction]
    obtain ⟨e, w1, ht⟩ := hfail proxy { w with sends := w.sends ++ [(sender, payload, proxy)] }
    have hfr := trySend_frame env proxy _ _ ht
    have hbu := trySend_builds env proxy _ _ ht
    rw [ht]
    simp only at hfr hbu ⊢
    have hfst := handleRetries_fst env.retries w1.retriesMap sender.address
    have hcnt := handleRetries_count env.retries w1.retriesMap sender.address
    generalize handleRetries env.retries w1.retriesMap sender.address = hr at hfst hcnt
    rcases hr with ⟨retry, m⟩
    simp only at hfst hcnt ⊢
    rw [hfr.1] at hfst hcnt
    by_cases hlt : w.retriesMap.count sender.address + 1 < env.retries
    · have hretry : retry = true := by simp [hfst, hlt]
      subst hretry
      simp only [if_true]
      obtain ⟨w', h1, h2, h3, h4⟩ := ih none
        { w1 with retriesMap := m, slept := w1.slept + 10000 } (by simp only; omega)
      simp only at h2 h3 h4
      refine ⟨w', h1, ?_, ?_, ?_⟩
      · rw [h2, hfr.2, hcnt]
        simp only [List.length_append, List.length_singleton]
        omega
      · rw [h3, hbu, hcnt]
        omega
      · rw [h4, hcnt]
        omega
    · have hretry : retry = false := by simp [hfst, hlt]
      subst hretry
      simp only [Bool.false_eq_true, if_false]
      refine ⟨_, rfl, ?_, ?_, ?_⟩
      · simp only [hfr.2, List.length_append, List.length_singleton]
        omega
      · simp only [hbu]
        omega
      · simp only [hcnt]
        omega

/-! ## Lemmas on single attempts -/

theorem trySend_rejected (env : Env) (proxy : Option String) (w : World)
    (resp : HttpResponse (Option String)) (errorText : String)
    (hb : env.generateTransaction w.builds = .ok ()) (hs : env.signTransaction w.signs = .ok ())
    (hp : env.post w.submits.length proxy = .ok resp) (hst : 400 ≤ resp.status)
    (htx : resp.text = .ok errorText) :
    trySend env proxy w = some (.error (.submitRejected errorText resp.status),
      { w with rng := fun n => w.rng (n + 1), builds := w.builds + 1, signs := w.signs + 1,
               submits := w.submits ++ [proxy] }) := by
  unfold trySend
  simp only [Rng.next, hb, hs, submitTransactionProxy, hp, ge_iff_le, hst, if_true, htx]

theorem trySend_confirmed (env : Env) (proxy : Option String) (w : World)
    (resp : HttpResponse (Option String)) (txnHash : Option String) (r : TxnRecord)
    (hb : env.generateTransaction w.builds = .ok ()) (hs : env.signTransaction w.signs = .ok ())
    (hp : env.post w.submits.length proxy = .ok resp) (hst : resp.status < 400)
    (hj : resp.json = .ok txnHash)
    (hget : ∀ n, ∃ rp, env.get n = .ok rp ∧ rp.status < 400 ∧ rp.json = .ok r)
    (hr : r.success = true ∧ r.type ≠ some "pending_transaction" ∧ r.status = none) :
    ∃ w', trySend env proxy w = some (.ok r, w') ∧ w'.submits = w.submits ++ [proxy] ∧
      w'.sends = w.sends ∧ w'.retriesMap = w.retriesMap := by
  have hfetch : ∀ (w0 w' : World), w0.gets ≤ w'.gets →
      getTransactionByHash env w' =
        (.ok ((fun _ => r) (w'.gets - w0.gets)), { w' with gets := w'.gets + 1 }) := by
    intro w0 w' _
    obtain ⟨rp, h1, h2, h3⟩ := hget w'.gets
    exact getTransactionByHash_of_reply env w' rp r h1 (Or.inr h2) h3
  have hnot : ¬ (resp.status ≥ 400) := by omega
  obtain ⟨w', hw'⟩ := waitForTransactionProxy_not_found_first env txnHash
    { w with rng := fun n => w.rng (n + 1), builds := w.builds + 1, signs := w.signs + 1,
             submits := w.submits ++ [proxy] } 0 (fun _ => r) r (by decide)
    (hfetch _) (fun _ => ⟨hr.2.1, Or.inl hr.2.2⟩) (fun n hn => by omega) (fun _ _ => rfl) hr.1
  have hu := waitForTransactionProxy_untouched env txnHash _ _ hw'
  refine ⟨w', ?_, hu.2.2.1, hu.2.1, hu.1⟩
  unfold trySend
  simp only [Rng.next, hb, hs, submitTransactionProxy, hp, hnot, if_false, hj]
  exact hw'

theorem sendTransaction_retry (env : Env) (sender : Account) (payload : Payload) (fuel : Nat)
    (proxy : Option String) (w : World) (e : JsError) (w1 : World)
    (ht : trySend env proxy { w with sends := w.sends ++ [(sender, payload, proxy)] } =
      some (.error e, w1))
    (hlt : w1.retriesMap.count sender.address + 1 < env.retries) :
    sendTransaction env (fuel + 1) sender payload proxy w =
      sendTransaction env fuel sender payload none
        { w1 with
          retriesMap :=
            w1.retriesMap.set sender.address (w1.retriesMap.count sender.address + 1),
          slept := w1.slept + 10000 } := by
  rw [sendTransaction, ht]
  simp only [handleRetries, nextCount_eq, hlt, decide_True, if_true]

theorem sendTransaction_done (env : Env) (sender : Account) (payload : Payload) (fuel : Nat)
    (proxy : Option String) (w : World) (r : TxnRecord) (w1 : World)
    (ht : trySend env proxy { w with sends := w.sends ++ [(sender, payload, proxy)] } =
      some (.ok r, w1)) :
    sendTransaction env (fuel + 1) sender payload proxy w = some (.ok (), w1) := by
  rw [sendTransaction, ht]

/-! ## The claims on polling outcomes and on retries -/

/-- C12 (not-found-as-pending): when the first 3 fetches by hash answer with
HTTP status 404 (the body being unsuccessful, not of type pending, and either
carrying a `status` of 404 or none) and every later fetch answers with the
non-pending record `r` whose success flag is set, `waitForTransactionProxy`
returns `r` without raising an error. -/
theorem waitForTransactionProxy_not_found_as_pending (env : Env) (txnHash : Option String)
    (w : World) (b : Nat → TxnRecord) (r : TxnRecord)
    (hnf : ∀ n, n < 3 →
      ∃ resp, env.get (w.gets + n) = .ok resp ∧ resp.status = 404 ∧ resp.json = .ok (b n))
    (hb : ∀ n, n < 3 → (b n).success = false ∧ (b n).type ≠ some "pending_transaction" ∧
      ((b n).status = some 404 ∨ (b n).status = none))
    (hok : ∀ n, 3 ≤ n →
      ∃ resp, env.get (w.gets + n) = .ok resp ∧ resp.status < 400 ∧ resp.json = .ok r)
    (hr : r.success = true ∧ r.type ≠ some "pending_transaction" ∧ r.status = none) :
    ∃ w', waitForTransactionProxy env txnHash w = some (.ok r, w') := by
  refine waitForTransactionProxy_not_found_first env txnHash w 3
    (fun n => if n < 3 then b n else r) r (by decide) ?_ ?_ ?_ ?_ hr.1
  · intro w' hle
    have hidx : w.gets + (w'.gets - w.gets) = w'.gets := by omega
    by_cases hn : w'.gets - w.gets < 3
    · obtain ⟨resp, h1, h2, h3⟩ := hnf _ hn
      rw [hidx] at h1
      simp only [hn, if_true]
      exact getTransactionByHash_of_reply env w' resp _ h1 (Or.inl h2) h3
    · obtain ⟨resp, h1, h2, h3⟩ := hok (w'.gets - w.gets) (by omega)
      rw [hidx] at h1
      simp only [hn, if_false]
      exact getTransactionByHash_of_reply env w' resp _ h1 (Or.inr h2) h3
  · intro n
    by_cases hn : n < 3
    · simp only [hn, if_true]
      obtain ⟨_, h2, h3⟩ := hb n hn
      exact ⟨h2, h3.elim (fun h => Or.inr ⟨trivial, h⟩) Or.inl⟩
    · simp only [hn, if_false]
      exact ⟨hr.2.1, Or.inl hr.2.2⟩
  · intro n hn
    simp only [hn, if_true]
    exact (hb n hn).1
  · intro n hn
    have : ¬ n < 3 := by omega
    simp only [this, if_false]

/-- Witness for `waitForTransactionProxy_not_found_as_pending`: the collaborators
`notFoundThenConfirmed`, whose 404 bodies carry `status: 404`. -/
theorem waitForTransactionProxy_not_found_as_pending_witness :
    (∀ n, n < 3 → ∃ resp, notFoundThenConfirmed.get ((World.init alwaysZero).gets + n) = .ok resp ∧
      resp.status = 404 ∧ resp.json = .ok notFoundBody) ∧
    ∃ w', waitForTransactionProxy notFoundThenConfirmed (some "0xabc") (World.init alwaysZero) =
      some (.ok confirmedRecord, w') :=
  ⟨fun n hn => ⟨{ status := 404, text := .ok "", json := .ok notFoundBody },
      by simp [notFoundThenConfirmed, World.init, hn], rfl, rfl⟩,
    waitForTransactionProxy_not_found_as_pending notFoundThenConfirmed (some "0xabc")
      (World.init alwaysZero) (fun _ => notFoundBody) confirmedRecord
      (fun n hn => ⟨{ status := 404, text := .ok "", json := .ok notFoundBody },
        by simp [notFoundThenConfirmed, World.init, hn], rfl, rfl⟩)
      (fun _ _ => ⟨rfl, (show notFoundBody.type ≠ some "pending_transaction" by decide),
        Or.inl rfl⟩)
      (fun n hn => ⟨{ status := 200, text := .ok "", json := .ok confirmedRecord }, by
        have : ¬ n < 3 := by omega
        simp [notFoundThenConfirmed, World.init, this], by decide, rfl⟩)
      ⟨rfl, by decide, rfl⟩⟩

/-- C13 (single-retry scenario), evaluated where it fails: `config.retries = 3`,
no counter for the address, a remote that answers the first submission with
500 and would answer a second one with 202 and a confirmed, successful
record. The retry is invoked as `sendTransaction(sender, payload)`, so it
calls `submitTransactionProxy` with no route and fails in
`new HttpsProxyAgent(undefined)` before the remote is asked; so does the retry
after it. `sendTransaction` returns after three invocations with the counter
at 3 and without any fetch by hash: no confirmed outcome, and not a counter of 1. -/
theorem sendTransaction_retry_loses_route :
    statusOf (rejectedThenConfirmed.post 0 (some "http://10.0.0.1:8080")) = some 500 ∧
    statusOf (rejectedThenConfirmed.post 1 (some "http://10.0.0.1:8080")) = some 202 ∧
    statusOf (rejectedThenConfirmed.post 1 none) = none ∧
    thrownBy (sendTransaction rejectedThenConfirmed 4 alice onePixel
      (some "http://10.0.0.1:8080") (World.init alwaysZero)) = none ∧
    (worldAfter (sendTransaction rejectedThenConfirmed 4 alice onePixel
      (some "http://10.0.0.1:8080") (World.init alwaysZero))).map
      (fun w => (w.submits, w.sends.length, w.retriesMap alice.address, w.gets)) =
      some ([some "http://10.0.0.1:8080", none, none], 3, some 3, 0) ∧
    (worldAfter (sendTransaction rejectedThenConfirmed 4 alice onePixel
      (some "http://10.0.0.1:8080") (World.init alwaysZero))).map
      (fun w => w.retriesMap alice.address) ≠ some (some 1) := by
  decide

/-- C16 (persistent failure), evaluated where it fails: when the transaction
is not pending and every fetched record has its success flag unset (text
"Move abort"), `waitForTransactionProxy` ends after 52 fetches with the
timed-out error, not with the error built from `response.text` and the hash. -/
theorem waitForTransactionProxy_failure_times_out :
    thrownBy (waitForTransactionProxy alwaysUnsuccessful (some "0xabc")
      (World.init alwaysZero)) = some (.timedOut (some "0xabc")) ∧
    thrownBy (waitForTransactionProxy alwaysUnsuccessful (some "0xabc")
      (World.init alwaysZero)) ≠ some (.notSuccessful (some "Move abort") (some "0xabc")) ∧
    (worldAfter (waitForTransactionProxy alwaysUnsuccessful (some "0xabc")
      (World.init alwaysZero))).map (fun w => (w.polls, w.gets)) = some (1, 52) := by
  decide

/-- C17 (confirmed returns the final successful record): whenever
`waitForTransactionProxy` returns normally, the returned record has its
success flag set and is the record given by the last fetch made, a fetch made
during the call. -/
theorem waitForTransactionProxy_returns_last_record (env : Env) (txnHash : Option String)
    (w w' : World) (r : TxnRecord)
    (h : waitForTransactionProxy env txnHash w = some (.ok r, w')) :
    r.success = true ∧ w.gets < w'.gets ∧
      ∃ resp, env.get (w'.gets - 1) = .ok resp ∧ resp.json = .ok r := by
  unfold waitForTransactionProxy at h
  cases h1 : pendingLoop env txnHash 51 0 w with
  | none => simp [h1] at h
  | some o1 =>
    have hle := pendingLoop_gets_le env txnHash 51 0 w o1 h1
    rw [h1] at h
    rcases o1 with ⟨_ | _, w1⟩
    · simp at h
    · simp only at h hle
      cases hg : getTransactionByHash env w1 with
      | mk res w2 =>
        rw [hg] at h
        cases res with
        | error e => simp at h
        | ok response =>
          simp only at h
          obtain ⟨hw2, resp, hresp, hjson⟩ := getTransactionByHash_ok env w1 w2 response hg
          cases h3 : successLoop env txnHash 51 0 response w2 with
          | none => simp [h3] at h
          | some o3 =>
            rw [h3] at h
            rcases o3 with ⟨_ | response1, w3⟩
            · simp at h
            · simp only at h
              split at h
              · simp at h
              · simp only [Option.some.injEq, Prod.mk.injEq, Except.ok.injEq] at h
                obtain ⟨e1, e2⟩ := h
                subst e1 e2
                have hfin := successLoop_ok env txnHash 51 0 response w2 response1 w3
                  ⟨by omega, resp, by simp only [hw2, Nat.add_sub_cancel]; exact hresp, hjson⟩ h3
                exact ⟨hfin.1, by omega, hfin.2.2⟩

/-- Witness for `waitForTransactionProxy_returns_last_record`: the collaborators
`rejectedThenConfirmed`, whose fetches all give `confirmedRecord`. -/
theorem waitForTransactionProxy_returns_last_record_witness :
    waitForTransactionProxy rejectedThenConfirmed (some "0xabc") (World.init alwaysZero) =
      some (.ok confirmedRecord, { World.init alwaysZero with polls := 1, gets := 2 }) ∧
    confirmedRecord.success = true ∧
    (World.init alwaysZero).gets < ({ World.init alwaysZero with polls := 1, gets := 2 }).gets ∧
    ∃ resp, rejectedThenConfirmed.get
        (({ World.init alwaysZero with polls := 1, gets := 2 } : World).gets - 1) = .ok resp ∧
      resp.json = .ok confirmedRecord :=
  ⟨rfl,
    waitForTransactionProxy_returns_last_record rejectedThenConfirmed (some "0xabc")
      (World.init alwaysZero) { World.init alwaysZero with polls := 1, gets := 2 }
      confirmedRecord rfl⟩

/-- C18 (retry arguments): the invocations of `sendTransaction` made by one
call are the call itself followed by retries that all carry the same sender,
the same payload and no route, whatever route the call was given. -/
theorem sendTransaction_retry_arguments (env : Env) (fuel : Nat) (sender : Account)
    (payload : Payload) (proxy : Option String) (w : World) (hfuel : env.retries < fuel) :
    ∃ w' k, sendTransaction env fuel sender payload proxy w = some (.ok (), w') ∧
      w'.sends =
        w.sends ++ (sender, payload, proxy) :: List.replicate k (sender, payload, none) := by
  obtain ⟨w', h, _⟩ := sendTransaction_returns env sender payload fuel proxy w (by omega)
    (by omega)
  obtain ⟨k, hk⟩ := sendTransaction_sends env sender payload fuel proxy w _ h
  exact ⟨w', k, h, hk⟩

/-- Witness for `sendTransaction_retry_arguments`: every remote call fails,
`config.retries = 3`, fuel 4. -/
theorem sendTransaction_retry_arguments_witness :
    alwaysFailing.retries < 4 ∧
    ∃ w' k, sendTransaction alwaysFailing 4 alice onePixel (some "http://10.0.0.1:8080")
        (World.init alwaysZero) = some (.ok (), w') ∧
      w'.sends = (World.init alwaysZero).sends ++
        (alice, onePixel, some "http://10.0.0.1:8080") ::
          List.replicate k (alice, onePixel, none) :=
  ⟨by decide,
    sendTransaction_retry_arguments alwaysFailing 4 alice onePixel
      (some "http://10.0.0.1:8080") (World.init alwaysZero) (by decide)⟩

/-- C20 (bounded retry recursion): when every attempt fails, one call of
`sendTransaction` (given fuel above `config.retries`) returns after exactly
`max 1 (retries - c)` invocations, `c` being the count of the address on
entry, each invocation calling the builder once, and leaves the count at
`c + max 1 (retries - c)`; for an absent counter and `retries ≥ 1` that is
exactly `retries` invocations and a final count of `retries`. -/
theorem sendTransaction_attempts (env : Env) (fuel : Nat) (sender : Account)
    (payload : Payload) (proxy : Option String) (w : World)
    (hfail : ∀ (proxy : Option String) (w : World),
      ∃ e w1, trySend env proxy w = some (.error e, w1))
    (hfuel : env.retries < fuel) :
    ∃ w', sendTransaction env fuel sender payload proxy w = some (.ok (), w') ∧
      w'.sends.length =
        w.sends.length + max 1 (env.retries - w.retriesMap.count sender.address) ∧
      w'.builds = w.builds + max 1 (env.retries - w.retriesMap.count sender.address) ∧
      w'.retriesMap.count sender.address = w.retriesMap.count sender.address +
        max 1 (env.retries - w.retriesMap.count sender.address) ∧
      (w.retriesMap sender.address = none → 1 ≤ env.retries →
        w'.sends.length = w.sends.length + env.retries ∧
        w'.builds = w.builds + env.retries ∧
        w'.retriesMap sender.address = some env.retries) := by
  obtain ⟨w', h1, h2, h3, h4⟩ := sendTransaction_all_fail env sender payload hfail fuel proxy w
    (by omega)
  refine ⟨w', h1, h2, h3, h4, ?_⟩
  intro habsent hm
  have hc : w.retriesMap.count sender.address = 0 := by simp [RetriesMap.count, habsent]
  rw [hc] at h2 h3 h4
  refine ⟨by omega, by omega, ?_⟩
  have h5 : w'.retriesMap.count sender.address = env.retries := by omega
  unfold RetriesMap.count at h5
  cases hopt : w'.retriesMap sender.address with
  | none =>
    rw [hopt] at h5
    simp at h5
    omega
  | some c =>
    rw [hopt] at h5
    simp at h5
    rw [h5]

/-- Witness for `sendTransaction_attempts`: every remote call fails,
`config.retries = 3`, fuel 4, a fresh process. -/
theorem sendTransaction_attempts_witness :
    (∀ (proxy : Option String) (w : World),
      ∃ e w1, trySend alwaysFailing proxy w = some (.error e, w1)) ∧
    alwaysFailing.retries < 4 ∧
    ∃ w', sendTransaction alwaysFailing 4 alice onePixel (some "http://10.0.0.1:8080")
        (World.init alwaysZero) = some (.ok (), w') ∧
      w'.sends.length = (World.init alwaysZero).sends.length +
        max 1 (alwaysFailing.retries - (World.init alwaysZero).retriesMap.count alice.address) ∧
      w'.builds = (World.init alwaysZero).builds +
        max 1 (alwaysFailing.retries - (World.init alwaysZero).retriesMap.count alice.address) ∧
      w'.retriesMap.count alice.address =
        (World.init alwaysZero).retriesMap.count alice.address +
        max 1 (alwaysFailing.retries - (World.init alwaysZero).retriesMap.count alice.address) ∧
      ((World.init alwaysZero).retriesMap alice.address = none → 1 ≤ alwaysFailing.retries →
        w'.sends.length = (World.init alwaysZero).sends.length + alwaysFailing.retries ∧
        w'.builds = (World.init alwaysZero).builds + alwaysFailing.retries ∧
        w'.retriesMap alice.address = some alwaysFailing.retries) :=
  ⟨fun _ _ => ⟨_, _, rfl⟩, by decide,
    sendTransaction_attempts alwaysFailing 4 alice onePixel (some "http://10.0.0.1:8080")
      (World.init alwaysZero) (fun _ _ => ⟨_, _, rfl⟩) (by decide)⟩

end Graffio
